import Mathlib

/-!
Verification of the transaction aggregation and statistics engine of the
analytics dashboard (React front end excluded).  The TypeScript source is
embedded shallowly:

* JavaScript numbers are modelled by `JsNum`: either `NaN`, `+Infinity`,
  `-Infinity`, or an exact rational.  Floating-point rounding is not
  modelled — every claim under study is about which records enter an
  aggregate and which exact formula is applied, not about rounding error.
  The IEEE special-value propagation rules that the code relies on
  (`NaN` contagiousness, division by zero, truthiness of `NaN` and `0`)
  are modelled exactly.
* `null`-able fields are `Option` values; JavaScript truthiness of
  `string` is emptiness, of numbers it is `JsNum.truthy`.
* Date handling (`date-fns` `parseISO`/`format`/`differenceInMinutes`,
  and the `Date` constructor) is modelled by a concrete parser for the
  strict `YYYY-MM-DDTHH:MM:SSZ` timestamp shape used by the data set,
  with civil-calendar day arithmetic for weekday computation.  The local
  timezone is taken to be UTC (the dashboard's hour labels are documented
  as UTC).  An invalid date makes `format` throw in `date-fns`; every
  computation that formats a possibly-invalid date is therefore
  `Option`-valued, `none` modelling the thrown exception.
* Array `reduce` without an initial value throws on an empty array; it is
  modelled by `reduceNoInit`, returning `none` on `[]`.
* JavaScript string sorting/numeric sorting (`Array.prototype.sort`) is
  modelled by `List.insertionSort`; every property proved about a sorted
  list is order-insensitive (sums) or about fully ordered selection
  (medians), so the tie-breaking of the engine's unspecified sort
  algorithm is irrelevant.
* `Math.sqrt` has no exact rational model; the standard-deviation display
  fields are represented by their variance (`sqrt` is applied only for
  display and no claim depends on it).
-/

/-- A JavaScript number: `NaN`, an infinity, or a finite value
(modelled as an exact rational, ignoring rounding). -/
inductive JsNum : Type where
  | nan : JsNum
  | posInf : JsNum
  | negInf : JsNum
  | num (q : ℚ) : JsNum
deriving DecidableEq, Repr

/-- IEEE addition on `JsNum` (without rounding). -/
def jsAdd : JsNum → JsNum → JsNum
  | .nan, _ => .nan
  | _, .nan => .nan
  | .posInf, .negInf => .nan
  | .negInf, .posInf => .nan
  | .posInf, _ => .posInf
  | _, .posInf => .posInf
  | .negInf, _ => .negInf
  | _, .negInf => .negInf
  | .num a, .num b => .num (a + b)

/-- IEEE multiplication on `JsNum` (without rounding). -/
def jsMul : JsNum → JsNum → JsNum
  | .nan, _ => .nan
  | _, .nan => .nan
  | .posInf, .posInf => .posInf
  | .posInf, .negInf => .negInf
  | .negInf, .posInf => .negInf
  | .negInf, .negInf => .posInf
  | .posInf, .num b => if 0 < b then .posInf else if b < 0 then .negInf else .nan
  | .num a, .posInf => if 0 < a then .posInf else if a < 0 then .negInf else .nan
  | .negInf, .num b => if 0 < b then .negInf else if b < 0 then .posInf else .nan
  | .num a, .negInf => if 0 < a then .negInf else if a < 0 then .posInf else .nan
  | .num a, .num b => .num (a * b)

/-- IEEE division on `JsNum` (without rounding; signed zero is not
modelled, so `x / 0` uses the sign of `x` alone). -/
def jsDiv : JsNum → JsNum → JsNum
  | .nan, _ => .nan
  | _, .nan => .nan
  | .posInf, .posInf => .nan
  | .posInf, .negInf => .nan
  | .negInf, .posInf => .nan
  | .negInf, .negInf => .nan
  | .posInf, .num b => if b < 0 then .negInf else .posInf
  | .negInf, .num b => if b < 0 then .posInf else .negInf
  | .num _, .posInf => .num 0
  | .num _, .negInf => .num 0
  | .num a, .num b =>
      if b = 0 then (if a = 0 then .nan else if 0 < a then .posInf else .negInf)
      else .num (a / b)

/-- `Math.abs`. -/
def jsAbs : JsNum → JsNum
  | .nan => .nan
  | .posInf => .posInf
  | .negInf => .posInf
  | .num a => .num |a|

/-- `a < b` on JavaScript numbers (`false` whenever `NaN` is involved). -/
def jsLt : JsNum → JsNum → Bool
  | .nan, _ => false
  | _, .nan => false
  | .num a, .num b => a < b
  | .posInf, _ => false
  | .negInf, .negInf => false
  | .negInf, _ => true
  | .num _, .posInf => true
  | .num _, .negInf => false

/-- `a <= b` on JavaScript numbers (`false` whenever `NaN` is involved). -/
def jsLe : JsNum → JsNum → Bool
  | .nan, _ => false
  | _, .nan => false
  | .num a, .num b => a ≤ b
  | .negInf, _ => true
  | _, .posInf => true
  | .posInf, _ => false
  | .num _, .negInf => false

/-- `Math.min` on two values (`NaN`-propagating). -/
def jsMin (a b : JsNum) : JsNum :=
  match a, b with
  | .nan, _ => .nan
  | _, .nan => .nan
  | x, y => if jsLe x y then x else y

/-- `Math.max` on two values (`NaN`-propagating). -/
def jsMax (a b : JsNum) : JsNum :=
  match a, b with
  | .nan, _ => .nan
  | _, .nan => .nan
  | x, y => if jsLe x y then y else x

/-- JavaScript truthiness of a number: `NaN` and `0` are falsy. -/
def JsNum.truthy : JsNum → Bool
  | .nan => false
  | .num a => a ≠ 0
  | _ => true

/-- Truthiness of a nullable number (`null` is falsy). -/
def jsTruthyOpt : Option JsNum → Bool
  | none => false
  | some v => v.truthy

/-- The JavaScript expression `v || d` for a nullable number `v`:
`v` when truthy, otherwise the default. -/
def jsOrDefault (v : Option JsNum) (d : JsNum) : JsNum :=
  match v with
  | some x => if x.truthy then x else d
  | none => d

theorem jsAdd_comm (a b : JsNum) : jsAdd a b = jsAdd b a := by
  cases a <;> cases b <;> (simp [jsAdd]; try ring)

theorem jsAdd_assoc (a b c : JsNum) :
    jsAdd (jsAdd a b) c = jsAdd a (jsAdd b c) := by
  cases a <;> cases b <;> cases c <;> (simp [jsAdd]; try ring)

theorem jsAdd_zero (a : JsNum) : jsAdd a (.num 0) = a := by
  cases a <;> simp [jsAdd]

theorem zero_jsAdd (a : JsNum) : jsAdd (.num 0) a = a := by
  cases a <;> simp [jsAdd]

instance : Add JsNum := ⟨jsAdd⟩

instance : Zero JsNum := ⟨.num 0⟩

instance : AddCommMonoid JsNum where
  add_assoc := jsAdd_assoc
  zero_add := zero_jsAdd
  add_zero := jsAdd_zero
  add_comm := jsAdd_comm
  nsmul := nsmulRec

theorem jsNum_add_def (a b : JsNum) : a + b = jsAdd a b := rfl

theorem jsNum_zero_def : (0 : JsNum) = .num 0 := rfl

/-- A left fold accumulating `jsAdd` of a projection, as the engine's
`reduce((sum, r) => sum + g(r), 0)` does, equals the sum of the mapped
list. -/
theorem foldl_jsAdd_eq_sum (g : α → JsNum) (l : List α) (z : JsNum) :
    l.foldl (fun s x => jsAdd s (g x)) z = jsAdd z (l.map g).sum := by
  induction l generalizing z with
  | nil => simp only [List.foldl_nil, List.map_nil, List.sum_nil,
      jsNum_zero_def, jsAdd_zero]
  | cons x xs ih =>
      simp only [List.foldl_cons, List.map_cons, List.sum_cons, ih,
        jsNum_add_def]
      rw [jsAdd_assoc]

/- ### String helpers

Core `String` functions such as `splitOn`, `trim` and `toUpper` are not
kernel-reducible, so the JavaScript string operations used by the source
are modelled directly on the character list of the string. -/

/-- Split a character list at every occurrence of `sep`
(`String.prototype.split` with a single-character separator). -/
def splitCharAux (sep : Char) : List Char → List Char → List String
  | [], acc => [String.mk acc.reverse]
  | c :: cs, acc =>
      if c = sep then String.mk acc.reverse :: splitCharAux sep cs []
      else splitCharAux sep cs (c :: acc)

/-- `s.split(sep)` for a single-character separator. -/
def splitChar (sep : Char) (s : String) : List String :=
  splitCharAux sep s.data []

/-- Whitespace characters removed by `String.prototype.trim`
(the forms that occur in the data set). -/
def isWsChar (c : Char) : Bool :=
  c = ' ' || c = '\n' || c = '\t' || c = '\r'

/-- `s.trim()`. -/
def jsTrim (s : String) : String :=
  String.mk (((s.data.dropWhile isWsChar).reverse.dropWhile isWsChar).reverse)

/-- `toUpperCase` on the underlying characters. -/
def jsToUpper (s : String) : String :=
  String.mk (s.data.map Char.toUpper)

/-- JavaScript truthiness of a string: the empty string is falsy. -/
def strTruthy (s : String) : Bool := s ≠ ""

/- ### Dates

The data set's timestamps have the strict shape `YYYY-MM-DDTHH:MM:SSZ`;
`parseISO` (and the `Date` constructor, used interchangeably by the
source on the same strings) is modelled as a parser of exactly that
shape, returning `none` for an invalid date.  Weekday computation uses
the standard civil-calendar day count. -/

structure DateTime : Type where
  year : Nat
  month : Nat
  day : Nat
  hour : Nat
  minute : Nat
  second : Nat
deriving DecidableEq, Repr

/-- Value of a decimal digit character. -/
def digitVal (c : Char) : Option Nat :=
  if c.isDigit then some (c.toNat - 48) else none

/-- The two-digit decimal number at positions `i`, `i+1`. -/
def twoDigitsAt (cs : List Char) (i : Nat) : Option Nat := do
  let a ← digitVal (cs.getD i ' ')
  let b ← digitVal (cs.getD (i + 1) ' ')
  some (a * 10 + b)

/-- `date-fns` `parseISO` (and `new Date(...)` on the same strings):
parse a `YYYY-MM-DDTHH:MM:SSZ` timestamp, `none` for an invalid date. -/
def parseISO (s : String) : Option DateTime :=
  let cs := s.data
  if cs.length = 20 ∧ cs.getD 4 ' ' = '-' ∧ cs.getD 7 ' ' = '-' ∧
     cs.getD 10 ' ' = 'T' ∧ cs.getD 13 ' ' = ':' ∧ cs.getD 16 ' ' = ':' ∧
     cs.getD 19 ' ' = 'Z' then do
    let yh ← twoDigitsAt cs 0
    let yl ← twoDigitsAt cs 2
    let mo ← twoDigitsAt cs 5
    let dy ← twoDigitsAt cs 8
    let hr ← twoDigitsAt cs 11
    let mi ← twoDigitsAt cs 14
    let se ← twoDigitsAt cs 17
    if 1 ≤ mo ∧ mo ≤ 12 ∧ 1 ≤ dy ∧ dy ≤ 31 ∧ hr ≤ 23 ∧ mi ≤ 59 ∧ se ≤ 59
    then some ⟨yh * 100 + yl, mo, dy, hr, mi, se⟩ else none
  else none

/-- Days from 1970-01-01 to the given civil date
(standard era/year-of-era computation). -/
def daysFromCivil (dt : DateTime) : Int :=
  let y : Nat := if dt.month ≤ 2 then dt.year - 1 else dt.year
  let era : Nat := y / 400
  let yoe : Nat := y % 400
  let mp : Nat := if 2 < dt.month then dt.month - 3 else dt.month + 9
  let doy : Nat := (153 * mp + 2) / 5 + dt.day - 1
  let doe : Nat := yoe * 365 + yoe / 4 - yoe / 100 + doy
  (era * 146097 + doe : Nat) - (719468 : Int)

/-- Seconds since the epoch (UTC; `Date.prototype.getTime` up to the
millisecond factor). -/
def epochSecs (dt : DateTime) : Int :=
  daysFromCivil dt * 86400 + dt.hour * 3600 + dt.minute * 60 + dt.second

/-- Index of the weekday, `0` = Sunday (1970-01-01 was a Thursday). -/
def weekdayIndex (dt : DateTime) : Nat :=
  ((daysFromCivil dt + 4).emod 7).toNat

def weekdayNames : List String :=
  ["Sunday", "Monday", "Tuesday", "Wednesday", "Thursday", "Friday",
   "Saturday"]

def monthAbbrs : List String :=
  ["Jan", "Feb", "Mar", "Apr", "May", "Jun", "Jul", "Aug", "Sep", "Oct",
   "Nov", "Dec"]

/-- The character of a single decimal digit. -/
def digitChar (d : Nat) : Char := Char.ofNat (48 + d)

/-- Two-digit zero-padded rendering (for `HH` and `dd`). -/
def twoDigits (n : Nat) : String :=
  String.mk [digitChar (n / 10 % 10), digitChar (n % 10)]

/-- Four-digit zero-padded rendering (for `yyyy`). -/
def fourDigits (n : Nat) : String :=
  String.mk [digitChar (n / 1000 % 10), digitChar (n / 100 % 10),
             digitChar (n / 10 % 10), digitChar (n % 10)]

/-- `format(date, 'EEEE')`: the weekday name. -/
def formatEEEE (dt : DateTime) : String :=
  weekdayNames.getD (weekdayIndex dt) "Sunday"

/-- `format(date, 'HH:00')`: the hour label. -/
def formatHH00 (dt : DateTime) : String := twoDigits dt.hour ++ ":00"

/-- `format(date, 'MMM yyyy')`: the month label. -/
def formatMMMyyyy (dt : DateTime) : String :=
  monthAbbrs.getD (dt.month - 1) "Jan" ++ " " ++ fourDigits dt.year

/-- `format(date, 'MMM dd')`: the day label. -/
def formatMMMdd (dt : DateTime) : String :=
  monthAbbrs.getD (dt.month - 1) "Jan" ++ " " ++ twoDigits dt.day

/-- `date-fns` `differenceInMinutes(a, b)`: full minutes, rounded toward
zero. -/
def differenceInMinutes (a b : DateTime) : Int :=
  (epochSecs a - epochSecs b).tdiv 60

/-- `date-fns` `differenceInHours(a, b)`: full hours, rounded toward
zero. -/
def differenceInHours (a b : DateTime) : Int :=
  (epochSecs a - epochSecs b).tdiv 3600

/-- `Array.prototype.reduce` with no initial value: throws on an empty
array (modelled as `none`), otherwise folds from the first element. -/
def reduceNoInit (f : α → α → α) : List α → Option α
  | [] => none
  | x :: xs => some (xs.foldl f x)

/- ### The record model (`src/types`)

Fields typed `number` in TypeScript are `JsNum`; `number | null` and
`string | null` are `Option`-valued.  The `type` field is a plain string
at runtime (the parser performs no validation). -/

structure Transaction : Type where
  id : String
  type : String
  source : String
  amount : JsNum
  fee : JsNum
  net : JsNum
  currency : String
  created : String
  availableOn : String
  description : String
  customerFacingAmount : Option JsNum
  customerFacingCurrency : Option String
  transfer : String
  transferDate : String
deriving DecidableEq, Repr

/- ### CSV ingestion (`src/utils/data`) -/

/-- Leading decimal digits of a character list, most significant first. -/
def takeDigits : List Char → List Nat × List Char
  | [] => ([], [])
  | c :: cs =>
      match digitVal c with
      | some d =>
          let (ds, rest) := takeDigits cs
          (d :: ds, rest)
      | none => ([], c :: cs)

/-- `parseFloat`: longest numeric prefix `[-]digits[.digits]`, `NaN`
when no digit is present (scientific notation does not occur in the
data and is not modelled). -/
def parseFloatJS (s : String) : JsNum :=
  let cs := s.data
  let (neg, cs) :=
    match cs with
    | '-' :: rest => (true, rest)
    | '+' :: rest => (false, rest)
    | _ => (false, cs)
  let (ip, cs) := takeDigits cs
  let fp : List Nat :=
    match cs with
    | '.' :: rest => (takeDigits rest).1
    | _ => []
  if ip = [] ∧ fp = [] then .nan
  else
    let ipart : ℚ := ip.foldl (fun a d => a * 10 + (d : ℚ)) 0
    let fpart : ℚ := (fp.foldl (fun a d => a * 10 + (d : ℚ)) 0) / 10 ^ fp.length
    .num ((if neg then -1 else 1) * (ipart + fpart))

/-- Field `i` of a comma-split line; a missing field is `undefined` in
JavaScript, modelled as `""` (equivalent under truthiness, and
`parseFloat` yields `NaN` on both). -/
def fieldD (fs : List String) (i : Nat) : String := fs.getD i ""

/-- Parse one CSV data row into a `Transaction`.  The destructuring in
the source skips the two columns after `fee`, so positions are
`id,type,source,amount,fee,_,_,net,currency,created,availableOn,`
`description,customerFacingAmount,customerFacingCurrency,transfer,`
`transferDate`.  An empty `customerFacingAmount` or
`customerFacingCurrency` field becomes `null`. -/
def parseLine (line : String) : Transaction :=
  let f := splitChar ',' line
  { id := fieldD f 0
    type := fieldD f 1
    source := fieldD f 2
    amount := parseFloatJS (fieldD f 3)
    fee := parseFloatJS (fieldD f 4)
    net := parseFloatJS (fieldD f 7)
    currency := fieldD f 8
    created := fieldD f 9
    availableOn := fieldD f 10
    description := fieldD f 11
    customerFacingAmount :=
      if fieldD f 12 = "" then none else some (parseFloatJS (fieldD f 12))
    customerFacingCurrency :=
      if fieldD f 13 = "" then none else some (fieldD f 13)
    transfer := fieldD f 14
    transferDate := fieldD f 15 }

/-- `parseTransactions`: trim, split into lines, drop the header row,
parse each remaining line. -/
def parseTransactions (data : String) : List Transaction :=
  ((splitChar '\n' (jsTrim data)).drop 1).map parseLine

/- ### Shared amount expressions -/

/-- The expression `Math.abs(t.customerFacingAmount || 0)` used by every
customer-facing-volume aggregation. -/
def cfaAbsAmount (t : Transaction) : JsNum :=
  jsAbs (jsOrDefault t.customerFacingAmount (.num 0))

/-- The expression `t.customerFacingAmount || 1` of the exchange-rate
divisor. -/
def cfaOr1 (t : Transaction) : JsNum :=
  jsOrDefault t.customerFacingAmount (.num 1)

/-- The expression `Math.abs(t.customerFacingAmount || 0)` of the
exchange-rate volume. -/
def cfaAbsOr0 (t : Transaction) : JsNum :=
  jsAbs (jsOrDefault t.customerFacingAmount (.num 0))

/- ### Generic keyed grouping

Every `transactions.reduce((acc, t) => { if (!acc[k]) acc[k] = init;
mutate acc[k]; return acc; }, {})` fold in the source builds a string-keyed
object in insertion order.  It is modelled as an association list in
insertion order; `f` receives the present entry (or `none`) and returns
the updated entry. -/

def bumpGroup (f : Option β → β) : List (String × β) → String → List (String × β)
  | [], k => [(k, f none)]
  | (k2, b) :: rest, k =>
      if k2 = k then (k2, f (some b)) :: rest
      else (k2, b) :: bumpGroup f rest k

/-- Sum of a numeric projection over the grouped entries. -/
def groupSum (cnt : β → Nat) (l : List (String × β)) : Nat :=
  (l.map (fun p => cnt p.2)).sum

theorem groupSum_bumpGroup (f : Option β → β) (cnt : β → Nat)
    (h : ∀ b : Option β, cnt (f b) = (b.map cnt).getD 0 + 1)
    (l : List (String × β)) (k : String) :
    groupSum cnt (bumpGroup f l k) = groupSum cnt l + 1 := by
  induction l with
  | nil => simp [bumpGroup, groupSum, h none]
  | cons p rest ih =>
      cases p with
      | mk k2 b =>
        simp only [bumpGroup]
        by_cases hk : k2 = k
        · rw [if_pos hk]
          simp only [groupSum, List.map_cons, List.sum_cons, h (some b)]
          simp only [Option.map, Option.getD]
          omega
        · rw [if_neg hk]
          simp only [groupSum, List.map_cons, List.sum_cons] at *
          omega

/- ### `ValueSegmentation` -/

structure ValueSegment : Type where
  label : String
  lo : ℚ
  hi : JsNum
  count : Nat
  volume : JsNum
deriving DecidableEq, Repr

/-- The five fixed segments, with their `range` bounds
(`hi` is `Infinity` for the last one). -/
def initialSegments : List ValueSegment :=
  [⟨"Micro (< $100)", 0, .num 100, 0, .num 0⟩,
   ⟨"Small ($100-500)", 100, .num 500, 0, .num 0⟩,
   ⟨"Medium ($500-1K)", 500, .num 1000, 0, .num 0⟩,
   ⟨"Large ($1K-5K)", 1000, .num 5000, 0, .num 0⟩,
   ⟨"Enterprise (> $5K)", 5000, .posInf, 0, .num 0⟩]

/-- `amount >= s.range[0] && amount < s.range[1]`. -/
def segMatches (s : ValueSegment) (amt : JsNum) : Bool :=
  jsLe (.num s.lo) amt && jsLt amt s.hi

/-- `segments.find(...)` followed by the guarded mutation: the first
matching segment is bumped; when no segment matches the record is
dropped (the list is returned unchanged). -/
def addToSegments : List ValueSegment → JsNum → List ValueSegment
  | [], _ => []
  | s :: rest, amt =>
      if segMatches s amt then
        { s with count := s.count + 1, volume := jsAdd s.volume amt } :: rest
      else s :: addToSegments rest amt

def valueSegmentation (txs : List Transaction) : List ValueSegment :=
  txs.foldl (fun segs t => addToSegments segs (cfaAbsAmount t)) initialSegments

def segCountSum (segs : List ValueSegment) : Nat :=
  (segs.map (fun s => s.count)).sum

/- ### `CurrencyDistributionChart`

(The second pass filling `avgSize`/`percentageVolume`/`percentageCount`
only rewrites those derived fields and is not referenced by any claim, so
only the grouping fold is embedded.) -/

structure CurrencyMetrics : Type where
  volume : JsNum
  count : Nat
  avgSize : JsNum
  percentageVolume : JsNum
  percentageCount : JsNum
deriving DecidableEq, Repr

/-- `t.customerFacingCurrency?.toUpperCase() || 'UNKNOWN'`. -/
def currencyKey (t : Transaction) : String :=
  match t.customerFacingCurrency with
  | some c => let u := jsToUpper c; if u = "" then "UNKNOWN" else u
  | none => "UNKNOWN"

def initCurrencyMetrics : CurrencyMetrics := ⟨.num 0, 0, .num 0, .num 0, .num 0⟩

def currencyData (txs : List Transaction) : List (String × CurrencyMetrics) :=
  txs.foldl (fun acc t =>
    bumpGroup (fun m0 =>
        let m := m0.getD initCurrencyMetrics
        { m with volume := jsAdd m.volume (cfaAbsAmount t),
                 count := m.count + 1 })
      acc (currencyKey t)) []

def currencyCountSum (l : List (String × CurrencyMetrics)) : Nat :=
  groupSum (fun m => m.count) l

/- ### `WeekdayAnalysis`

All seven weekday entries are seeded before the fold, so the group list
always has exactly seven entries in Sunday-to-Saturday order; an invalid
`created` date makes `format(date, 'EEEE')` throw (`none`). -/

structure WeekdayData : Type where
  day : String
  count : Nat
  volume : JsNum
  avgSize : JsNum
deriving DecidableEq, Repr

def weekdayInit : List WeekdayData :=
  weekdayNames.map (fun d => ⟨d, 0, .num 0, .num 0⟩)

/-- `weekdayData[day].count++; weekdayData[day].volume += amount`. -/
def bumpWeekday (l : List WeekdayData) (day : String) (amt : JsNum) :
    List WeekdayData :=
  l.map (fun w =>
    if w.day = day then
      { w with count := w.count + 1, volume := jsAdd w.volume amt }
    else w)

def weekdayStep (acc : List WeekdayData) (t : Transaction) :
    Option (List WeekdayData) :=
  (parseISO t.created).map (fun dt =>
    bumpWeekday acc (formatEEEE dt) (cfaAbsAmount t))

def weekdayDataOf (txs : List Transaction) : Option (List WeekdayData) :=
  txs.foldlM weekdayStep weekdayInit

/-- The `data.avgSize = data.volume / data.count` pass. -/
def weekdayWithAvg (l : List WeekdayData) : List WeekdayData :=
  l.map (fun w => { w with avgSize := jsDiv w.volume (.num (w.count : ℚ)) })

def weekdayAnalysis (txs : List Transaction) : Option (List WeekdayData) :=
  (weekdayDataOf txs).map weekdayWithAvg

def weekdayCountSum (l : List WeekdayData) : Nat :=
  (l.map (fun w => w.count)).sum

/- ### `TransactionChart` (grouping by day) -/

structure DailyData : Type where
  date : String
  volume : JsNum
  count : Nat
  avgSize : JsNum
  rawTime : Int
deriving DecidableEq, Repr

/-- A grouping fold keyed by a label of the parsed `created` date: the
shared shape of the day/hour/month reduces of the source, each of which
formats `t.created` (throwing, i.e. `none`, on an invalid date), looks
the label up in the accumulator object and initialises-then-mutates the
entry. -/
def groupFoldCreated (key : DateTime → String)
    (upd : Transaction → DateTime → Option β → β)
    (txs : List Transaction) : Option (List (String × β)) :=
  txs.foldlM (fun acc t =>
    (parseISO t.created).map (fun dt =>
      bumpGroup (upd t dt) acc (key dt))) []

/-- Entry update of the `TransactionChart` day fold. -/
def dailyUpd (t : Transaction) (dt : DateTime) (d0 : Option DailyData) :
    DailyData :=
  let d := d0.getD ⟨formatMMMdd dt, .num 0, 0, .num 0, epochSecs dt⟩
  let v := jsAdd d.volume (cfaAbsAmount t)
  let c := d.count + 1
  { d with volume := v, count := c, avgSize := jsDiv v (.num (c : ℚ)) }

def dailyDataOf (txs : List Transaction) :
    Option (List (String × DailyData)) :=
  groupFoldCreated formatMMMdd dailyUpd txs

def dailyCountSum (l : List (String × DailyData)) : Nat :=
  groupSum (fun d => d.count) l

/- ### `TransactionVelocity` (grouping by hour of day) -/

structure HourlyData : Type where
  hour : String
  count : Nat
  volume : JsNum
  avgSize : JsNum
  transactions : List Transaction
deriving DecidableEq, Repr

/-- Entry update of the `TransactionVelocity` hour fold. -/
def hourlyUpd (t : Transaction) (dt : DateTime) (h0 : Option HourlyData) :
    HourlyData :=
  let h := h0.getD ⟨formatHH00 dt, 0, .num 0, .num 0, []⟩
  let c := h.count + 1
  let v := jsAdd h.volume (cfaAbsAmount t)
  { h with count := c, volume := v,
           transactions := h.transactions ++ [t],
           avgSize := jsDiv v (.num (c : ℚ)) }

def hourlyDataOf (txs : List Transaction) :
    Option (List (String × HourlyData)) :=
  groupFoldCreated formatHH00 hourlyUpd txs

def hourlyCountSum (l : List (String × HourlyData)) : Nat :=
  groupSum (fun h => h.count) l

/-- `Object.values(hourlyData).sort((a, b) => a.hour.localeCompare(b.hour))`. -/
def sortedHoursOf (txs : List Transaction) : Option (List HourlyData) :=
  (hourlyDataOf txs).map (fun l =>
    (l.map (fun p => p.2)).insertionSort (fun a b => a.hour ≤ b.hour))

/-- `sortedHours.reduce((peak, current) => current.count > peak.count ?
current : peak)` — a reduce without initial value, which throws on an
empty array. -/
def peakHourOf (txs : List Transaction) : Option HourlyData := do
  let hs ← sortedHoursOf txs
  reduceNoInit (fun peak current =>
    if peak.count < current.count then current else peak) hs

/- ### Median computations (`ProcessingEfficiency`,
`calculateRateMetrics`, `TransactionVelocity`)

Each median in the engine numerically sorts a list and selects the entry
at index `Math.floor(length / 2)`.  The selections are modelled on the
rational value lists they are applied to (the lists contain `NaN` only
when a timestamp fails to parse, in which case the order produced by the
JavaScript sort comparator is unspecified and out of scope). -/

/-- Full sort, then the element at index `floor(n / 2)` (`undefined`,
i.e. `none`, on the empty list). -/
def selectUpperMiddle (l : List ℚ) : Option ℚ :=
  (l.insertionSort (· ≤ ·))[l.length / 2]?

/-- `processingTimes.sort((a, b) => a - b)[Math.floor(processingTimes.length / 2)]`. -/
def medianTimePE (processingTimes : List ℚ) : Option ℚ :=
  (processingTimes.insertionSort (· ≤ ·))[processingTimes.length / 2]?

/-- The `median` of `calculateRateMetrics`:
`sortedRates[Math.floor(rates.length / 2)]` with `sortedRates` a sorted
copy of `rates`. -/
def rateMetricsMedian (rates : List ℚ) : Option ℚ :=
  (rates.insertionSort (· ≤ ·))[rates.length / 2]?

/-- `sortedHours.map(h => h.count).sort((a, b) => a - b)`
`[Math.floor(sortedHours.length / 2)]`. -/
def medianTransactionsPerHour (sortedHours : List HourlyData) : Option ℚ :=
  ((sortedHours.map (fun h => (h.count : ℚ))).insertionSort
    (· ≤ ·))[sortedHours.length / 2]?

/- ### `MonthlyVolumeTrends` (grouping by month)

(The later pass filling `avgSize` and `growth` rewrites only those
derived fields; the claims under study concern the grouping itself.) -/

structure MonthlyMetrics : Type where
  volume : JsNum
  count : Nat
  avgSize : JsNum
  growth : JsNum
deriving DecidableEq, Repr

/-- Entry update of the `MonthlyVolumeTrends` month fold. -/
def monthlyUpd (t : Transaction) (_dt : DateTime)
    (m0 : Option MonthlyMetrics) : MonthlyMetrics :=
  let m := m0.getD ⟨.num 0, 0, .num 0, .num 0⟩
  { m with volume := jsAdd m.volume (cfaAbsAmount t),
           count := m.count + 1 }

def monthlyDataOf (txs : List Transaction) :
    Option (List (String × MonthlyMetrics)) :=
  groupFoldCreated formatMMMyyyy monthlyUpd txs

def monthlyCountSum (l : List (String × MonthlyMetrics)) : Nat :=
  groupSum (fun m => m.count) l

/- ### `ProcessingEfficiency` -/

/-- IEEE negation. -/
def jsNeg : JsNum → JsNum
  | .nan => .nan
  | .posInf => .negInf
  | .negInf => .posInf
  | .num a => .num (-a)

/-- IEEE subtraction. -/
def jsSub (a b : JsNum) : JsNum := jsAdd a (jsNeg b)

/-- `calculateProcessingTime`: `0` when `created` or `availableOn` is
falsy (missing), otherwise `differenceInMinutes(parseISO(availableOn),`
`parseISO(created))` (`NaN` when a non-empty timestamp fails to
parse). -/
def calculateProcessingTime (t : Transaction) : JsNum :=
  if ¬ strTruthy t.created ∨ ¬ strTruthy t.availableOn then .num 0
  else
    match parseISO t.availableOn, parseISO t.created with
    | some a, some c => .num ((differenceInMinutes a c : ℤ) : ℚ)
    | _, _ => .nan

/-- `transactions.filter(t => t.created && t.availableOn)`
`.map(calculateProcessingTime)`. -/
def processingTimesOf (txs : List Transaction) : List JsNum :=
  (txs.filter (fun t => strTruthy t.created && strTruthy t.availableOn)).map
    calculateProcessingTime

/-- The summary record of `calculateMetrics`, with the standard
deviation represented by the variance (see the header note on
`Math.sqrt`). -/
structure ProcessingMetrics : Type where
  count : Nat
  totalTime : JsNum
  avgTime : JsNum
  minTime : JsNum
  maxTime : JsNum
  variance : JsNum
deriving DecidableEq, Repr

/-- `calculateMetrics` of `ProcessingEfficiency`.  `Math.min()` of an
empty spread is `Infinity` and `Math.max()` is `-Infinity`; an empty
list gives `avgTime = 0 / 0 = NaN` without an exception. -/
def calculateMetrics (times : List JsNum) : ProcessingMetrics :=
  let count := times.length
  let totalTime := times.foldl (fun s x => jsAdd s x) (.num 0)
  let avgTime := jsDiv totalTime (.num (count : ℚ))
  let minTime := times.foldl jsMin .posInf
  let maxTime := times.foldl jsMax .negInf
  let variance := jsDiv
    (times.foldl (fun s x => jsAdd s (jsMul (jsSub x avgTime) (jsSub x avgTime)))
      (.num 0))
    (.num (count : ℚ))
  ⟨count, totalTime, avgTime, minTime, maxTime, variance⟩

/-- The processing-time chart buckets: the five numeric intervals of
`const intervals = [5, 15, 30, 60, 120, 'More']` plus the `'More'`
label. -/
inductive ProcBucket : Type where
  | le (bound : ℚ) : ProcBucket
  | more : ProcBucket
deriving DecidableEq, Repr

def procIntervals : List ℚ := [5, 15, 30, 60, 120]

/-- `intervals.find(i => typeof i === 'number' && time <= i) || 'More'`
(every numeric interval is non-zero, so the `||` fallback fires exactly
when `find` returns `undefined`). -/
def procBucketOf (time : JsNum) : ProcBucket :=
  match procIntervals.find? (fun i => jsLe time (.num i)) with
  | some i => .le i
  | none => .more

/- ### `ExchangeRateAnalysis` -/

structure ExchangeRateData : Type where
  date : String
  rate : JsNum
  volume : JsNum
  count : Nat
  rawTime : Int
deriving DecidableEq, Repr

/-- `t.customerFacingAmount && t.customerFacingCurrency === 'usd'`. -/
def erFilter (t : Transaction) : Bool :=
  jsTruthyOpt t.customerFacingAmount &&
    t.customerFacingCurrency == some "usd"

/-- The record built for one filtered transaction. -/
def erDatum (t : Transaction) (dt : DateTime) : ExchangeRateData :=
  { date := formatMMMdd dt
    rate := jsAbs (jsDiv t.amount (cfaOr1 t))
    volume := cfaAbsOr0 t
    count := 1
    rawTime := epochSecs dt }

/-- Filter, map (with `format`, which throws on an invalid `created`),
then sort ascending by raw date. -/
def exchangeRatesOf (txs : List Transaction) :
    Option (List ExchangeRateData) := do
  let l ← (txs.filter erFilter).mapM
    (fun t => (parseISO t.created).map (erDatum t))
  some (l.insertionSort (fun a b => a.rawTime ≤ b.rawTime))

/-- `exchangeRates.reduce((sum, r) => sum + r.rate * r.volume, 0) /`
`exchangeRates.reduce((sum, r) => sum + r.volume, 0)`. -/
def volumeWeightedRateOf (txs : List Transaction) : Option JsNum :=
  (exchangeRatesOf txs).map (fun l =>
    jsDiv (l.foldl (fun s r => jsAdd s (jsMul r.rate r.volume)) (.num 0))
          (l.foldl (fun s r => jsAdd s r.volume) (.num 0)))

/- ### `calculateDailyMetrics` (`ProcessingTimeMetrics`)

Only the per-day processing-time lists are embedded (the later
per-day statistics pass consumes them).  The `created` date is formatted
unconditionally, so a missing or invalid `created` throws; a
non-positive processing time (in particular the `0` of a missing
`availableOn`) is not pushed. -/

def dailyTimesStep (acc : List (String × List JsNum)) (t : Transaction) :
    Option (List (String × List JsNum)) :=
  (parseISO t.created).map (fun dt =>
    let pt := calculateProcessingTime t
    bumpGroup (fun ts0 =>
        let ts := ts0.getD []
        if jsLt (.num 0) pt then ts ++ [pt] else ts)
      acc (formatMMMdd dt))

def dailyTimesOf (txs : List Transaction) :
    Option (List (String × List JsNum)) :=
  txs.foldlM dailyTimesStep []

/-- The processing-time list recorded for day label `d`. -/
def timesForDay (g : List (String × List JsNum)) (d : String) :
    List JsNum :=
  ((g.find? (fun p => p.1 == d)).map (fun p => p.2)).getD []

/- ### `TransactionMetrics`

The big `transactions.reduce` fold.  Its accumulator is embedded field
by field; the two string/number-keyed distribution objects are total
functions with default `0` (JavaScript reads them through `|| 0`, which
identifies a missing key with a stored `0`).  The three
`paymentPayoutPairs` numbers are initialised and never written.  The
fold formats the `created` date of every payment-typed record, so it
throws (`none`) when such a date is invalid. -/

/-- `v || d` for two numbers. -/
def jsNumOr (v d : JsNum) : JsNum := if v.truthy then v else d

structure TMAcc : Type where
  totalVolume : JsNum
  avgTransactionSize : JsNum
  avgExchangeRate : JsNum
  exchangeRateCount : Nat
  minExchangeRate : JsNum
  maxExchangeRate : JsNum
  hourlyDistribution : Nat → Nat
  totalTransactions : Nat
  smallTransactions : Nat
  mediumTransactions : Nat
  largeTransactions : Nat
  processingTimes : List JsNum
  monthlyVolumes : String → JsNum
  totalUsdVolume : JsNum
  volumeWeightedRate : JsNum
  totalWeightedVolume : JsNum
  pppAvgMatchingTime : JsNum
  pppMaxMatchingTime : JsNum
  pppMinMatchingTime : JsNum

def tmInit : TMAcc :=
  { totalVolume := .num 0
    avgTransactionSize := .num 0
    avgExchangeRate := .num 0
    exchangeRateCount := 0
    minExchangeRate := .num 0
    maxExchangeRate := .num 0
    hourlyDistribution := fun _ => 0
    totalTransactions := 0
    smallTransactions := 0
    mediumTransactions := 0
    largeTransactions := 0
    processingTimes := []
    monthlyVolumes := fun _ => .num 0
    totalUsdVolume := .num 0
    volumeWeightedRate := .num 0
    totalWeightedVolume := .num 0
    pppAvgMatchingTime := .num 0
    pppMaxMatchingTime := .num 0
    pppMinMatchingTime := .num 0 }

/-- One iteration of the `TransactionMetrics` reduce.  `len` is
`transactions.length` of the full input list, captured by the closure
for the running `avgTransactionSize`.  A record whose `type` is not
`'payment'` leaves the accumulator untouched. -/
def tmStep (len : Nat) (acc : TMAcc) (t : Transaction) : Option TMAcc :=
  if t.type = "payment" then
    match parseISO t.created with
    | none => none
    | some dt =>
      let tv := jsAdd acc.totalVolume (jsAbs t.amount)
      let acc1 := { acc with totalVolume := tv,
                             avgTransactionSize := jsDiv tv (.num (len : ℚ)) }
      let acc2 :=
        match t.customerFacingAmount with
        | some cfa =>
            if cfa.truthy then
              let rate := jsAbs (jsDiv t.amount cfa)
              { acc1 with
                avgExchangeRate := jsAdd acc1.avgExchangeRate rate
                exchangeRateCount := acc1.exchangeRateCount + 1
                minExchangeRate :=
                  if acc1.minExchangeRate = JsNum.num 0 then rate
                  else jsMin acc1.minExchangeRate rate
                maxExchangeRate := jsMax acc1.maxExchangeRate rate
                totalUsdVolume := jsAdd acc1.totalUsdVolume cfa
                volumeWeightedRate :=
                  jsAdd acc1.volumeWeightedRate (jsMul rate cfa)
                totalWeightedVolume := jsAdd acc1.totalWeightedVolume cfa }
            else acc1
        | none => acc1
      let month := formatMMMyyyy dt
      let hour := dt.hour
      let acc3 := { acc2 with
        hourlyDistribution := fun h =>
          if h = hour then acc2.hourlyDistribution hour + 1
          else acc2.hourlyDistribution h
        monthlyVolumes := fun m =>
          if m = month then
            jsAdd (jsNumOr (acc2.monthlyVolumes month) (.num 0))
              (jsAbs t.amount)
          else acc2.monthlyVolumes m }
      let pt : JsNum :=
        match parseISO t.availableOn with
        | some adt => .num ((differenceInHours adt dt : ℤ) : ℚ)
        | none => .nan
      let acc4 := { acc3 with processingTimes := acc3.processingTimes ++ [pt] }
      let amtAbs := jsAbs t.amount
      let acc5 :=
        if jsLt amtAbs (.num 10000) then
          { acc4 with smallTransactions := acc4.smallTransactions + 1 }
        else if jsLt amtAbs (.num 50000) then
          { acc4 with mediumTransactions := acc4.mediumTransactions + 1 }
        else { acc4 with largeTransactions := acc4.largeTransactions + 1 }
      some { acc5 with totalTransactions := acc5.totalTransactions + 1 }
  else some acc

def transactionMetricsAccWith (len : Nat) (txs : List Transaction) :
    Option TMAcc :=
  txs.foldlM (tmStep len) tmInit

def transactionMetricsAcc (txs : List Transaction) : Option TMAcc :=
  transactionMetricsAccWith txs.length txs

/-- `t.type === 'payment'`. -/
def isPayment (t : Transaction) : Bool := t.type == "payment"

/-- `successRate: (metrics.totalTransactions / transactions.length) * 100`. -/
def tmSuccessRate (txs : List Transaction) : Option JsNum :=
  (transactionMetricsAcc txs).map (fun m =>
    jsMul (jsDiv (.num (m.totalTransactions : ℚ)) (.num (txs.length : ℚ)))
      (.num 100))

/-- `metrics.volumeWeightedRate / metrics.totalWeightedVolume`. -/
def tmVolumeWeightedExchangeRate (txs : List Transaction) : Option JsNum :=
  (transactionMetricsAcc txs).map (fun m =>
    jsDiv m.volumeWeightedRate m.totalWeightedVolume)

/- ### Support lemmas -/

theorem foldlM_invariant {β α : Type} (step : β → α → Option β)
    (P : β → Prop)
    (hstep : ∀ b a b', step b a = some b' → P b → P b') :
    ∀ (l : List α) (b b' : β), List.foldlM step b l = some b' → P b → P b' := by
  intro l
  induction l with
  | nil =>
      intro b b' h hb
      simp only [List.foldlM_nil, pure, Option.some.injEq] at h
      exact h ▸ hb
  | cons x xs ih =>
      intro b b' h hb
      rw [List.foldlM_cons] at h
      cases hs : step b x with
      | none => rw [hs] at h; simp at h
      | some b1 =>
          rw [hs] at h
          simp only [Option.bind_eq_bind, Option.some_bind] at h
          exact ih b1 b' h (hstep b x b1 hs hb)

theorem foldlM_isSome {β α : Type} (step : β → α → Option β)
    (l : List α) (hstep : ∀ b a, a ∈ l → (step b a).isSome) :
    ∀ b, (List.foldlM step b l).isSome := by
  induction l with
  | nil => intro b; simp [List.foldlM_nil, pure]
  | cons x xs ih =>
      intro b
      rw [List.foldlM_cons]
      cases hs : step b x with
      | none =>
          have := hstep b x (by simp)
          rw [hs] at this
          simp at this
      | some b1 =>
          simp only [Option.bind_eq_bind, Option.some_bind]
          exact ih (fun b a ha => hstep b a (List.mem_cons_of_mem x ha)) b1

theorem mapM_option_isSome {α β : Type} (f : α → Option β) :
    ∀ (l : List α), (∀ a ∈ l, (f a).isSome) → (l.mapM f).isSome := by
  intro l
  induction l with
  | nil => intro _; rw [List.mapM_nil]; rfl
  | cons x xs ih =>
      intro h
      rw [List.mapM_cons]
      cases hx : f x with
      | none =>
          have := h x (by simp)
          rw [hx] at this
          simp at this
      | some y =>
          cases hxs : xs.mapM f with
          | none =>
              have := ih (fun a ha => h a (List.mem_cons_of_mem x ha))
              rw [hxs] at this
              simp at this
          | some ys => simp [hx, hxs]

/-- The sum of a numeric projection is unchanged by sorting. -/
theorem sum_map_insertionSort {α : Type} (r : α → α → Prop)
    [DecidableRel r] (g : α → JsNum) (l : List α) :
    ((l.insertionSort r).map g).sum = (l.map g).sum :=
  ((List.perm_insertionSort r l).map g).sum_eq

theorem groupFoldCreated_countSum {β : Type} (key : DateTime → String)
    (upd : Transaction → DateTime → Option β → β) (cnt : β → Nat)
    (hupd : ∀ t dt b, cnt (upd t dt b) = (b.map cnt).getD 0 + 1) :
    ∀ (txs : List Transaction) (acc : List (String × β)) l,
      List.foldlM (fun acc t =>
        (parseISO t.created).map (fun dt =>
          bumpGroup (upd t dt) acc (key dt))) acc txs = some l →
      groupSum cnt l = groupSum cnt acc + txs.length := by
  intro txs
  induction txs with
  | nil =>
      intro acc l h
      simp only [List.foldlM_nil, pure, Option.some.injEq] at h
      simp [h.symm]
  | cons t ts ih =>
      intro acc l h
      rw [List.foldlM_cons] at h
      cases hp : parseISO t.created with
      | none => rw [hp] at h; simp [Option.map] at h
      | some dt =>
          rw [hp] at h
          simp only [Option.map, Option.bind_eq_bind, Option.some_bind] at h
          have := ih (bumpGroup (upd t dt) acc (key dt)) l h
          rw [groupSum_bumpGroup (upd t dt) cnt (hupd t dt)] at this
          simp only [List.length_cons]
          omega

/- ### Value-segmentation lemmas -/

/-- The bucket boundaries of a segment list. -/
def rangesOf (segs : List ValueSegment) : List (ℚ × JsNum) :=
  segs.map (fun s => (s.lo, s.hi))

theorem rangesOf_addToSegments (segs : List ValueSegment) (amt : JsNum) :
    rangesOf (addToSegments segs amt) = rangesOf segs := by
  induction segs with
  | nil => rfl
  | cons s rest ih =>
      by_cases h : segMatches s amt = true
      · simp [addToSegments, h, rangesOf]
      · simp only [Bool.not_eq_true] at h
        simp [addToSegments, h, rangesOf] at ih ⊢
        exact ih

theorem segCountSum_addToSegments (segs : List ValueSegment) (amt : JsNum)
    (h : ∃ s ∈ segs, segMatches s amt = true) :
    segCountSum (addToSegments segs amt) = segCountSum segs + 1 := by
  induction segs with
  | nil => simp at h
  | cons s rest ih =>
      by_cases hs : segMatches s amt = true
      · simp [addToSegments, hs, segCountSum]
        omega
      · simp only [Bool.not_eq_true] at hs
        rcases h with ⟨s2, hmem, hm⟩
        rcases List.mem_cons.mp hmem with rfl | hmem2
        · rw [hs] at hm; cases hm
        · simp only [addToSegments, hs, Bool.false_eq_true, if_false,
            segCountSum, List.map_cons, List.sum_cons] at ih ⊢
          rw [ih ⟨s2, hmem2, hm⟩]
          omega

/-- Every non-negative finite amount matches some segment of a list with
the reference boundaries: the five ranges cover `[0, Infinity)`. -/
theorem exists_segMatch (segs : List ValueSegment)
    (h : rangesOf segs = rangesOf initialSegments) (q : ℚ) (hq : 0 ≤ q) :
    ∃ s ∈ segs, segMatches s (.num q) = true := by
  rcases segs with _ | ⟨s0, _ | ⟨s1, _ | ⟨s2, _ | ⟨s3, _ | ⟨s4, rest⟩⟩⟩⟩⟩ <;>
    first
      | (exfalso; simp [rangesOf, initialSegments] at h; done)
      | skip
  simp only [rangesOf, initialSegments, List.map_cons, List.cons.injEq,
    Prod.mk.injEq, List.map_eq_nil_iff] at h
  obtain ⟨⟨l0, h0⟩, ⟨l1, h1⟩, ⟨l2, h2⟩, ⟨l3, h3⟩, ⟨l4, h4⟩, hrest⟩ := h
  rcases lt_or_le q 100 with hb | hb
  · exact ⟨s0, by simp, by simp [segMatches, jsLe, jsLt, l0, h0, hq, hb]⟩
  rcases lt_or_le q 500 with hc | hc
  · refine ⟨s1, by simp, ?_⟩
    simp [segMatches, jsLe, jsLt, l1, h1, hc]
    linarith
  rcases lt_or_le q 1000 with hd | hd
  · refine ⟨s2, by simp, ?_⟩
    simp [segMatches, jsLe, jsLt, l2, h2, hd]
    linarith
  rcases lt_or_le q 5000 with he | he
  · refine ⟨s3, by simp, ?_⟩
    simp [segMatches, jsLe, jsLt, l3, h3, he]
    linarith
  · refine ⟨s4, by simp, ?_⟩
    simp [segMatches, jsLe, jsLt, l4, h4]
    linarith

/-- Shape of `Math.abs(t.customerFacingAmount || 0)`: `Infinity`, or a
non-negative finite value. -/
theorem cfaAbsAmount_spec (t : Transaction) :
    cfaAbsAmount t = .posInf ∨ ∃ q : ℚ, 0 ≤ q ∧ cfaAbsAmount t = .num q := by
  unfold cfaAbsAmount jsOrDefault
  cases hc : t.customerFacingAmount with
  | none => exact Or.inr ⟨0, le_refl 0, by simp [jsAbs]⟩
  | some v =>
      cases v with
      | nan => exact Or.inr ⟨0, le_refl 0, by simp [JsNum.truthy, jsAbs]⟩
      | posInf => exact Or.inl (by simp [JsNum.truthy, jsAbs])
      | negInf => exact Or.inl (by simp [JsNum.truthy, jsAbs])
      | num q =>
          by_cases hz : q = 0
          · exact Or.inr ⟨0, le_refl 0, by simp [JsNum.truthy, hz, jsAbs]⟩
          · exact Or.inr ⟨|q|, abs_nonneg q, by simp [JsNum.truthy, hz, jsAbs]⟩

theorem valueSegmentation_countSum (txs : List Transaction) :
    ∀ segs : List ValueSegment,
      rangesOf segs = rangesOf initialSegments →
      (∀ t ∈ txs, cfaAbsAmount t ≠ .posInf) →
      segCountSum (txs.foldl (fun segs t =>
        addToSegments segs (cfaAbsAmount t)) segs) =
        segCountSum segs + txs.length := by
  induction txs with
  | nil => intro segs _ _; simp
  | cons t ts ih =>
      intro segs hr hno
      have hamt : ∃ q : ℚ, 0 ≤ q ∧ cfaAbsAmount t = .num q := by
        rcases cfaAbsAmount_spec t with h | h
        · exact absurd h (hno t (by simp))
        · exact h
      rcases hamt with ⟨q, hq, hqe⟩
      simp only [List.foldl_cons]
      rw [ih (addToSegments segs (cfaAbsAmount t))
        (by rw [rangesOf_addToSegments]; exact hr)
        (fun u hu => hno u (List.mem_cons_of_mem t hu))]
      rw [segCountSum_addToSegments segs (cfaAbsAmount t)
        (by rw [hqe]; exact exists_segMatch segs hr q hq)]
      simp only [List.length_cons]
      omega

/- ### Weekday lemmas -/

/-- The count stored for day label `d` (`0` when the label is absent). -/
def getWDCount (l : List WeekdayData) (d : String) : Nat :=
  ((l.find? (fun w => w.day == d)).map (fun w => w.count)).getD 0

theorem formatEEEE_mem (dt : DateTime) : formatEEEE dt ∈ weekdayNames := by
  unfold formatEEEE
  rcases lt_or_le (weekdayIndex dt) weekdayNames.length with h | h
  · rw [List.getD_eq_getElem weekdayNames "Sunday" h]
    exact List.getElem_mem h
  · rw [List.getD_eq_default weekdayNames "Sunday" h]
    simp [weekdayNames]

theorem bumpWeekday_days (l : List WeekdayData) (day : String) (amt : JsNum) :
    (bumpWeekday l day amt).map (fun w => w.day) = l.map (fun w => w.day) := by
  induction l with
  | nil => rfl
  | cons w ws ih =>
      simp only [bumpWeekday, List.map_cons] at ih ⊢
      by_cases h : w.day = day <;> simp [h, ih]

theorem weekday_foldlM_days (txs : List Transaction)
    (acc : List WeekdayData) (l : List WeekdayData)
    (h : List.foldlM weekdayStep acc txs = some l) :
    l.map (fun w => w.day) = acc.map (fun w => w.day) := by
  refine foldlM_invariant weekdayStep
    (fun b => b.map (fun w => w.day) = acc.map (fun w => w.day))
    ?_ txs acc l h rfl
  intro b t b' hs hb
  unfold weekdayStep at hs
  cases hp : parseISO t.created with
  | none => rw [hp] at hs; simp at hs
  | some dt =>
      rw [hp] at hs
      simp only [Option.map, Option.some.injEq] at hs
      rw [← hs, bumpWeekday_days]
      exact hb

theorem find_isSome_of_mem_days (l : List WeekdayData) (d : String)
    (h : d ∈ l.map (fun w => w.day)) :
    (l.find? (fun w => w.day == d)).isSome := by
  induction l with
  | nil => simp at h
  | cons w ws ih =>
      by_cases hw : w.day = d
      · rw [List.find?_cons_of_pos]
        · rfl
        · simp [hw]
      · rw [List.find?_cons_of_neg]
        · refine ih ?_
          rcases List.mem_map.mp h with ⟨a, ha, had⟩
          rcases List.mem_cons.mp ha with rfl | ha2
          · exact absurd had hw
          · exact List.mem_map.mpr ⟨a, ha2, had⟩
        · simp [hw]

theorem getWDCount_bumpWeekday (l : List WeekdayData) (day : String)
    (amt : JsNum) (d : String) :
    getWDCount (bumpWeekday l day amt) d =
      getWDCount l d +
        (if d = day ∧ (l.find? (fun w => w.day == d)).isSome then 1
         else 0) := by
  induction l with
  | nil => simp [bumpWeekday, getWDCount, List.find?]
  | cons w ws ih =>
      have hb : (if w.day = day then
          { w with count := w.count + 1,
                   volume := jsAdd w.volume amt } else w).day = w.day := by
        by_cases hm : w.day = day <;> simp [hm]
      by_cases hw : w.day = d
      · simp only [bumpWeekday, List.map_cons]
        rw [getWDCount, List.find?_cons_of_pos _
            (by by_cases hm : w.day = day
                · rw [if_pos hm]
                  show (w.day == d) = true
                  simp [hw]
                · rw [if_neg hm]
                  simp [hw]),
          getWDCount, List.find?_cons_of_pos _ (by simp [hw])]
        by_cases hd : d = day
        · have hm : w.day = day := by rw [hw, hd]
          simp [hm, hd, Option.map, Option.getD]
        · have hm : ¬ w.day = day := fun he => hd (hw ▸ he)
          simp [hm, hd, Option.map, Option.getD]
      · simp only [bumpWeekday, List.map_cons]
        rw [getWDCount, List.find?_cons_of_neg _
            (by by_cases hm : w.day = day
                · rw [if_pos hm]
                  show ¬ (w.day == d) = true
                  simp [hw]
                · rw [if_neg hm]
                  simp [hw]),
          getWDCount, List.find?_cons_of_neg _ (by simp [hw])]
        exact ih

/-- Per-day counts after the weekday fold: the seeded entry for day `d`
counts exactly the transactions whose `created` weekday is `d`. -/
theorem weekday_fold_counts (txs : List Transaction) :
    ∀ (acc : List WeekdayData) (l : List WeekdayData),
      List.foldlM weekdayStep acc txs = some l →
      acc.map (fun w => w.day) = weekdayNames →
      ∀ d, getWDCount l d = getWDCount acc d +
        txs.countP (fun t => (parseISO t.created).map formatEEEE == some d) := by
  induction txs with
  | nil =>
      intro acc l h _ d
      simp only [List.foldlM_nil, pure, Option.some.injEq] at h
      simp [h.symm]
  | cons t ts ih =>
      intro acc l h hdays d
      rw [List.foldlM_cons] at h
      cases hp : parseISO t.created with
      | none => unfold weekdayStep at h; rw [hp] at h; simp at h
      | some dt =>
          unfold weekdayStep at h
          rw [hp] at h
          simp only [Option.map, Option.bind_eq_bind, Option.some_bind] at h
          have hdays1 : (bumpWeekday acc (formatEEEE dt)
              (cfaAbsAmount t)).map (fun w => w.day) = weekdayNames := by
            rw [bumpWeekday_days]; exact hdays
          have hrec := ih _ l h hdays1 d
          rw [hrec, getWDCount_bumpWeekday]
          rw [List.countP_cons]
          by_cases hd : d = formatEEEE dt
          · have hmem : d ∈ acc.map (fun w => w.day) := by
              rw [hdays, hd]; exact formatEEEE_mem dt
            have hsome := find_isSome_of_mem_days acc d hmem
            have h1 : (if d = formatEEEE dt ∧
                (acc.find? (fun w => w.day == d)).isSome then 1 else 0) = 1 := by
              rw [if_pos ⟨hd, hsome⟩]
            have h2 : ((parseISO t.created).map formatEEEE == some d) = true := by
              simp [hp, hd]
            rw [h1, h2]
            simp only [if_true]
            omega
          · have h1 : (if d = formatEEEE dt ∧
                (acc.find? (fun w => w.day == d)).isSome then 1 else 0) = 0 := by
              rw [if_neg (fun hcon => hd hcon.1)]
            have h2 : ((parseISO t.created).map formatEEEE == some d) = false := by
              rw [hp]
              simp only [Option.map]
              simp
              exact fun he => hd he.symm
            rw [h1, h2]
            simp only [Bool.false_eq_true, if_false]
            omega

/-- Along the weekday fold a zero count implies a zero volume. -/
theorem weekday_zero_volume (txs : List Transaction)
    (l : List WeekdayData)
    (h : List.foldlM weekdayStep weekdayInit txs = some l) :
    ∀ w ∈ l, w.count = 0 → w.volume = JsNum.num 0 := by
  refine foldlM_invariant weekdayStep
    (fun b => ∀ w ∈ b, w.count = 0 → w.volume = JsNum.num 0)
    ?_ txs weekdayInit l h ?_
  · intro b t b' hs hb
    unfold weekdayStep at hs
    cases hp : parseISO t.created with
    | none => rw [hp] at hs; simp at hs
    | some dt =>
        rw [hp] at hs
        simp only [Option.map, Option.some.injEq] at hs
        rw [← hs]
        intro w hw hc
        unfold bumpWeekday at hw
        rcases List.mem_map.mp hw with ⟨w0, hw0, hweq⟩
        by_cases hm : w0.day = formatEEEE dt
        · rw [if_pos hm] at hweq
          rw [← hweq] at hc
          simp at hc
        · rw [if_neg hm] at hweq
          exact hweq ▸ hb w0 hw0 (hweq ▸ hc)
  · intro w hw _
    unfold weekdayInit at hw
    rcases List.mem_map.mp hw with ⟨d, _, hweq⟩
    rw [← hweq]

/- ### Exchange-rate fold lemmas -/

/-- The per-record projections of the mapped exchange-rate data: `rate`,
`volume` and their product depend only on the transaction, not on the
parsed date. -/
theorem mapM_erDatum_projections (sel : List Transaction) :
    ∀ es, sel.mapM (fun t => (parseISO t.created).map (erDatum t)) = some es →
      es.map (fun r => r.rate) =
        sel.map (fun t => jsAbs (jsDiv t.amount (cfaOr1 t))) ∧
      es.map (fun r => r.volume) = sel.map cfaAbsOr0 ∧
      es.map (fun r => jsMul r.rate r.volume) =
        sel.map (fun t =>
          jsMul (jsAbs (jsDiv t.amount (cfaOr1 t))) (cfaAbsOr0 t)) := by
  induction sel with
  | nil =>
      intro es h
      rw [List.mapM_nil] at h
      cases h
      simp
  | cons t ts ih =>
      intro es h
      rw [List.mapM_cons] at h
      cases hp : parseISO t.created with
      | none => rw [hp] at h; simp at h
      | some dt =>
          rw [hp] at h
          cases hts : ts.mapM (fun t => (parseISO t.created).map (erDatum t)) with
          | none => rw [hts] at h; simp at h
          | some ys =>
              rw [hts] at h
              simp only [Option.map, Option.bind_eq_bind, Option.some_bind,
                pure, Option.some.injEq] at h
              rcases ih ys hts with ⟨h1, h2, h3⟩
              rw [← h]
              simp only [List.map_cons, h1, h2, h3, erDatum]
              exact ⟨trivial, trivial, trivial⟩

/- ### Daily processing-time lemmas -/

/-- Bumping a day with no new time changes no per-day time list
(a fresh key is created with an empty list). -/
theorem timesForDay_bump_empty (acc : List (String × List JsNum))
    (k d : String) :
    timesForDay (bumpGroup (fun ts0 => ts0.getD []) acc k) d =
      timesForDay acc d := by
  induction acc with
  | nil =>
      unfold bumpGroup timesForDay
      by_cases h : k = d
      · rw [List.find?_cons_of_pos _ (by simp [h]), List.find?_nil]
        simp [Option.getD]
      · rw [List.find?_cons_of_neg _ (by simp [h]), List.find?_nil]
  | cons p rest ih =>
      cases p with
      | mk k2 ts =>
        unfold bumpGroup
        by_cases hk : k2 = k
        · rw [if_pos hk]
          simp [timesForDay, Option.getD]
        · rw [if_neg hk]
          unfold timesForDay
          by_cases hd : k2 = d
          · rw [List.find?_cons_of_pos _ (by simp [hd]),
              List.find?_cons_of_pos _ (by simp [hd])]
          · rw [List.find?_cons_of_neg _ (by simp [hd]),
              List.find?_cons_of_neg _ (by simp [hd])]
            exact ih

/- ### Concrete records used by the witnesses and counterexamples -/

/-- A payment of 100 settlement units against 50 usd, created
2024-01-05 (a Friday), available one hour later. -/
def txPay1 : Transaction :=
  { id := "t1", type := "payment", source := "s", amount := .num 100,
    fee := .num 0, net := .num 100, currency := "usd",
    created := "2024-01-05T10:00:00Z",
    availableOn := "2024-01-05T11:00:00Z", description := "",
    customerFacingAmount := some (.num 50),
    customerFacingCurrency := some "usd", transfer := "",
    transferDate := "" }

/-- A payment of 300 settlement units against 100 usd, created
2024-01-06. -/
def txPay2 : Transaction :=
  { txPay1 with
    id := "t2"
    amount := .num 300
    customerFacingAmount := some (.num 100)
    created := "2024-01-06T10:00:00Z"
    availableOn := "2024-01-06T12:00:00Z" }

/-- A payment whose customer-facing currency is `eur`. -/
def txEur : Transaction :=
  { txPay1 with id := "t3", customerFacingCurrency := some "eur" }

/-- A payout-typed record. -/
def txPayout : Transaction :=
  { txPay1 with id := "t4", type := "payout" }

/-- A record with a missing `availableOn`. -/
def txNoAvail : Transaction :=
  { txPay1 with id := "t5", availableOn := "" }

/-- A record whose `created` does not parse as a timestamp. -/
def txBadCreated : Transaction :=
  { txPay1 with id := "t6", created := "not-a-date" }

/- ### Claim theorems -/

/-- C3: every median computation in the engine is a full sort followed
by selection of the element at index `floor(n / 2)` — the
`ProcessingEfficiency` median, the `calculateRateMetrics` median and the
`TransactionVelocity` hourly median all equal the same
sort-and-upper-middle selection — and on the even-length input
`[10, 20, 30, 40]` this selection yields `30` (the upper-middle
element), not `25` (the average of the two middle elements). -/
theorem median_is_sort_upper_middle :
    (∀ l : List ℚ, medianTimePE l = selectUpperMiddle l) ∧
    (∀ l : List ℚ, rateMetricsMedian l = selectUpperMiddle l) ∧
    (∀ hs : List HourlyData,
      medianTransactionsPerHour hs =
        selectUpperMiddle (hs.map (fun h => (h.count : ℚ)))) ∧
    selectUpperMiddle [10, 20, 30, 40] = some 30 ∧
    selectUpperMiddle [10, 20, 30, 40] ≠ some 25 := by
  refine ⟨fun l => rfl, fun l => rfl, fun hs => ?_, by decide, by decide⟩
  unfold medianTransactionsPerHour selectUpperMiddle
  rw [List.length_map]

/-- Follows the claim's wording for the processing-time buckets: the
first bucket whose upper bound the value is STRICTLY less than. -/
def procBucketSpecStrict (time : JsNum) : ProcBucket :=
  match procIntervals.find? (fun i => jsLt time (.num i)) with
  | some i => .le i
  | none => .more

/-- C6 counterexample: a processing time of exactly `5` minutes falls in
the code's first bucket (bound `5`, the `time <= i` test), while the
claim's strictly-less-than rule would place it in the bucket with bound
`15`; the boundary value refutes the claimed half-open semantics for the
processing-time buckets. -/
theorem procBucket_boundary_cex :
    procBucketOf (.num 5) = ProcBucket.le 5 ∧
    procBucketSpecStrict (.num 5) = ProcBucket.le 15 ∧
    ProcBucket.le 5 ≠ ProcBucket.le 15 := by decide

/-- The label of the first value segment matching an amount. -/
def segLabelFor (q : ℚ) : Option String :=
  (initialSegments.find? (fun s => segMatches s (.num q))).map
    (fun s => s.label)

/-- C6 (amended): value segments use half-open intervals
`[lo, hi)` — on a non-negative amount the first match is determined by
the strict upper bounds `100/500/1000/5000` — while the processing-time
buckets use an INCLUSIVE upper bound (first interval with
`time <= bound`, else `More`); a record matching no segment is dropped,
leaving the segment list unchanged. -/
theorem bucket_assignment_amended :
    (∀ q : ℚ, procBucketOf (.num q) =
      (if q ≤ 5 then ProcBucket.le 5
       else if q ≤ 15 then ProcBucket.le 15
       else if q ≤ 30 then ProcBucket.le 30
       else if q ≤ 60 then ProcBucket.le 60
       else if q ≤ 120 then ProcBucket.le 120
       else ProcBucket.more)) ∧
    (∀ q : ℚ, 0 ≤ q → segLabelFor q =
      some (if q < 100 then "Micro (< $100)"
            else if q < 500 then "Small ($100-500)"
            else if q < 1000 then "Medium ($500-1K)"
            else if q < 5000 then "Large ($1K-5K)"
            else "Enterprise (> $5K)")) ∧
    (∀ (segs : List ValueSegment) (amt : JsNum),
      (∀ s ∈ segs, segMatches s amt = false) →
      addToSegments segs amt = segs) := by
  refine ⟨?_, ?_, ?_⟩
  · intro q
    unfold procBucketOf procIntervals
    by_cases h5 : q ≤ 5
    · rw [List.find?_cons_of_pos _ (by simp [jsLe, h5]), if_pos h5]
    · rw [List.find?_cons_of_neg _ (by simp [jsLe, h5]), if_neg h5]
      by_cases h15 : q ≤ 15
      · rw [List.find?_cons_of_pos _ (by simp [jsLe, h15]), if_pos h15]
      · rw [List.find?_cons_of_neg _ (by simp [jsLe, h15]), if_neg h15]
        by_cases h30 : q ≤ 30
        · rw [List.find?_cons_of_pos _ (by simp [jsLe, h30]), if_pos h30]
        · rw [List.find?_cons_of_neg _ (by simp [jsLe, h30]), if_neg h30]
          by_cases h60 : q ≤ 60
          · rw [List.find?_cons_of_pos _ (by simp [jsLe, h60]), if_pos h60]
          · rw [List.find?_cons_of_neg _ (by simp [jsLe, h60]), if_neg h60]
            by_cases h120 : q ≤ 120
            · rw [List.find?_cons_of_pos _ (by simp [jsLe, h120]),
                if_pos h120]
            · rw [List.find?_cons_of_neg _ (by simp [jsLe, h120]),
                if_neg h120, List.find?_nil]
  · intro q hq
    unfold segLabelFor initialSegments
    by_cases h100 : q < 100
    · rw [List.find?_cons_of_pos _
        (by simp only [segMatches, jsLe, jsLt, Bool.and_eq_true,
              decide_eq_true_eq]
            exact ⟨hq, h100⟩), if_pos h100]
      rfl
    · rw [List.find?_cons_of_neg _
        (by simp only [segMatches, jsLe, jsLt, Bool.and_eq_true,
              decide_eq_true_eq, not_and]
            intro _; exact h100), if_neg h100]
      by_cases h500 : q < 500
      · rw [List.find?_cons_of_pos _
          (by simp only [segMatches, jsLe, jsLt, Bool.and_eq_true,
                decide_eq_true_eq]
              exact ⟨by linarith, h500⟩), if_pos h500]
        rfl
      · rw [List.find?_cons_of_neg _
          (by simp only [segMatches, jsLe, jsLt, Bool.and_eq_true,
                decide_eq_true_eq, not_and]
              intro _; exact h500), if_neg h500]
        by_cases h1000 : q < 1000
        · rw [List.find?_cons_of_pos _
            (by simp only [segMatches, jsLe, jsLt, Bool.and_eq_true,
                  decide_eq_true_eq]
                exact ⟨by linarith, h1000⟩), if_pos h1000]
          rfl
        · rw [List.find?_cons_of_neg _
            (by simp only [segMatches, jsLe, jsLt, Bool.and_eq_true,
                  decide_eq_true_eq, not_and]
                intro _; exact h1000), if_neg h1000]
          by_cases h5000 : q < 5000
          · rw [List.find?_cons_of_pos _
              (by simp only [segMatches, jsLe, jsLt, Bool.and_eq_true,
                    decide_eq_true_eq]
                  exact ⟨by linarith, h5000⟩), if_pos h5000]
            rfl
          · rw [List.find?_cons_of_neg _
              (by simp only [segMatches, jsLe, jsLt, Bool.and_eq_true,
                    decide_eq_true_eq, not_and]
                  intro _; exact h5000), if_neg h5000]
            rw [List.find?_cons_of_pos _
              (by simp only [segMatches, jsLe, jsLt, Bool.and_true,
                    Bool.and_eq_true, decide_eq_true_eq]
                  linarith)]
            rfl
  · intro segs amt h
    induction segs with
    | nil => rfl
    | cons s rest ih =>
        unfold addToSegments
        rw [if_neg (by rw [h s (by simp)]; simp)]
        rw [ih (fun u hu => h u (List.mem_cons_of_mem s hu))]

/-- C6 witness: the amended bucket characterisations applied at the
concrete amounts `5` (processing time, inclusive boundary) and `250`
(value segment) and at a no-match segment list. -/
theorem bucket_assignment_witness :
    procBucketOf (.num 5) = ProcBucket.le 5 ∧
    segLabelFor 250 = some "Small ($100-500)" ∧
    addToSegments [] (.num 250) = [] :=
  ⟨by rw [bucket_assignment_amended.1 5]; norm_num,
   by rw [bucket_assignment_amended.2.1 250 (by norm_num)]; norm_num,
   bucket_assignment_amended.2.2 [] (.num 250) (by simp)⟩

/-- C8: a CSV row whose `customerFacingAmount` field is the empty string
parses to `customerFacingAmount = null` (not `0`, not `NaN`), and the
same for an empty `customerFacingCurrency`; such a record is falsy at
every `t.customerFacingAmount` guard, so it fails the exchange-rate
filter (the representative aggregate requiring the field). -/
theorem empty_csv_field_parses_to_null (line : String) :
    (fieldD (splitChar ',' line) 12 = "" →
      (parseLine line).customerFacingAmount = none ∧
      jsTruthyOpt (parseLine line).customerFacingAmount = false ∧
      erFilter (parseLine line) = false) ∧
    (fieldD (splitChar ',' line) 13 = "" →
      (parseLine line).customerFacingCurrency = none) := by
  constructor
  · intro h12
    have hcfa : (parseLine line).customerFacingAmount = none := by
      simp [parseLine, h12]
    refine ⟨hcfa, by rw [hcfa]; rfl, ?_⟩
    unfold erFilter
    rw [hcfa]
    rfl
  · intro h13
    simp [parseLine, h13]

/-- C8 witness: a concrete row with empty `customerFacingAmount` and
`customerFacingCurrency` fields. -/
theorem empty_csv_field_witness :
    fieldD (splitChar ','
      "id,payment,s,100,2,x,y,98,usd,2024-01-05T10:00:00Z,2024-01-05T11:00:00Z,d,,,tr,td") 12 = "" ∧
    (parseLine
      "id,payment,s,100,2,x,y,98,usd,2024-01-05T10:00:00Z,2024-01-05T11:00:00Z,d,,,tr,td").customerFacingAmount = none ∧
    erFilter (parseLine
      "id,payment,s,100,2,x,y,98,usd,2024-01-05T10:00:00Z,2024-01-05T11:00:00Z,d,,,tr,td") = false ∧
    (parseLine
      "id,payment,s,100,2,x,y,98,usd,2024-01-05T10:00:00Z,2024-01-05T11:00:00Z,d,,,tr,td").customerFacingCurrency = none :=
  ⟨by decide,
   ((empty_csv_field_parses_to_null _).1 (by decide)).1,
   ((empty_csv_field_parses_to_null _).1 (by decide)).2.2,
   (empty_csv_field_parses_to_null _).2 (by decide)⟩

/-- C10: every record passing the exchange-rate filter
(`t.customerFacingAmount && t.customerFacingCurrency === 'usd'`) has a
present, truthy (hence non-zero) `customerFacingAmount`, so the divisor
`t.customerFacingAmount || 1` is the amount itself — the `|| 1` fallback
is unreachable — and is never `0` or `null`. -/
theorem erFilter_divisor_safe (t : Transaction) (h : erFilter t = true) :
    t.customerFacingAmount ≠ none ∧
    t.customerFacingAmount ≠ some (JsNum.num 0) ∧
    (∃ v, t.customerFacingAmount = some v ∧ v.truthy = true ∧
      cfaOr1 t = v) ∧
    cfaOr1 t ≠ JsNum.num 0 := by
  unfold erFilter at h
  rw [Bool.and_eq_true] at h
  obtain ⟨h1, _⟩ := h
  cases hc : t.customerFacingAmount with
  | none => rw [hc] at h1; simp [jsTruthyOpt] at h1
  | some v =>
      rw [hc] at h1
      have hv : v.truthy = true := h1
      have hvne : v ≠ JsNum.num 0 := by
        intro he
        rw [he] at hv
        simp [JsNum.truthy] at hv
      have hor : cfaOr1 t = v := by
        unfold cfaOr1 jsOrDefault
        rw [hc]
        simp [hv]
      exact ⟨by simp [hc], by simp [hc, hvne], ⟨v, rfl, hv, hor⟩,
        by rw [hor]; exact hvne⟩

/-- C10 witness: the filter accepts `txPay1` and its divisor is the
non-zero amount `50`. -/
theorem erFilter_divisor_safe_witness :
    erFilter txPay1 = true ∧ cfaOr1 txPay1 ≠ JsNum.num 0 :=
  ⟨by decide, (erFilter_divisor_safe txPay1 (by decide)).2.2.2⟩

/-- C5 counterexample: a record with a missing `availableOn` is assigned
processing time `0` by `calculateProcessingTime`, but
`ProcessingEfficiency` filters it out before aggregating — its
processing-time list for `[txNoAvail]` is empty, i.e. the record is NOT
included with value `0` in the latency aggregate as the claim states. -/
theorem missing_latency_not_included_cex :
    calculateProcessingTime txNoAvail = JsNum.num 0 ∧
    processingTimesOf [txNoAvail] = [] ∧
    JsNum.num 0 ∉ processingTimesOf [txNoAvail] := by decide

/-- C5 (amended): a record with a missing `created` or `availableOn`
gets processing time `0` from `calculateProcessingTime`, but is EXCLUDED
from the latency aggregates rather than contributing that `0`:
`ProcessingEfficiency` drops it in the `t.created && t.availableOn`
filter, and `calculateDailyMetrics` pushes no time for it into any
per-day list (the `processingTime > 0` check rejects the `0`); when both
timestamps parse (and `availableOn` is not before `created`), the
latency is the floor of the minutes between `availableOn` and
`created`. -/
theorem missing_latency_excluded_amended :
    (∀ t : Transaction,
      (¬ strTruthy t.created ∨ ¬ strTruthy t.availableOn) →
      calculateProcessingTime t = JsNum.num 0 ∧
      (∀ txs, processingTimesOf (t :: txs) = processingTimesOf txs) ∧
      (∀ (acc : List (String × List JsNum)) (dt : DateTime),
        parseISO t.created = some dt →
        dailyTimesStep acc t =
          some (bumpGroup (fun ts0 => ts0.getD []) acc (formatMMMdd dt)) ∧
        (∀ d, timesForDay
            (bumpGroup (fun ts0 => ts0.getD []) acc (formatMMMdd dt)) d =
          timesForDay acc d))) ∧
    (∀ (t : Transaction) (a c : DateTime),
      strTruthy t.created = true → strTruthy t.availableOn = true →
      parseISO t.availableOn = some a → parseISO t.created = some c →
      epochSecs c ≤ epochSecs a →
      calculateProcessingTime t =
        .num (((epochSecs a - epochSecs c).ediv 60 : ℤ) : ℚ)) := by
  constructor
  · intro t h
    have h0 : calculateProcessingTime t = JsNum.num 0 := by
      unfold calculateProcessingTime
      rw [if_pos]
      simpa using h
    refine ⟨h0, ?_, ?_⟩
    · intro txs
      unfold processingTimesOf
      rw [List.filter_cons_of_neg]
      rcases h with h | h <;> simp [h]
    · intro acc dt hdt
      have hfun : (fun ts0 : Option (List JsNum) =>
          let ts := ts0.getD []
          if jsLt (.num 0) (calculateProcessingTime t) then
            ts ++ [calculateProcessingTime t]
          else ts) = (fun ts0 => ts0.getD []) := by
        funext ts0
        rw [h0]
        simp [jsLt]
      constructor
      · unfold dailyTimesStep
        rw [hdt]
        simp only [Option.map, Option.some.injEq]
        rw [← hfun]
      · intro d
        exact timesForDay_bump_empty acc (formatMMMdd dt) d
  · intro t a c hc ha hpa hpc hle
    unfold calculateProcessingTime
    rw [if_neg (by simp [hc, ha]), hpa, hpc]
    show JsNum.num ((differenceInMinutes a c : ℤ) : ℚ) = _
    unfold differenceInMinutes
    rw [Int.tdiv_eq_ediv (show (0 : ℤ) ≤ epochSecs a - epochSecs c by omega)
      (by norm_num)]
    rfl

/-- C5 witness: the amended statement applied to `txNoAvail` (missing
`availableOn`) and, for the floor clause, to `txPay1` (sixty full
minutes between creation and availability). -/
theorem missing_latency_excluded_witness :
    calculateProcessingTime txNoAvail = JsNum.num 0 ∧
    processingTimesOf [txNoAvail] = processingTimesOf [] ∧
    calculateProcessingTime txPay1 = .num ((3600 : ℤ).ediv 60 : ℤ) :=
  ⟨(missing_latency_excluded_amended.1 txNoAvail (Or.inr (by decide))).1,
   (missing_latency_excluded_amended.1 txNoAvail
      (Or.inr (by decide))).2.1 [],
   by
    have := missing_latency_excluded_amended.2 txPay1
      ⟨2024, 1, 5, 11, 0, 0⟩ ⟨2024, 1, 5, 10, 0, 0⟩
      (by decide) (by decide) (by decide) (by decide) (by decide)
    rw [this]
    decide⟩

/- ### Count-sum lemmas for the remaining groupings -/

theorem currencyData_countSum (txs : List Transaction) :
    ∀ acc, currencyCountSum (txs.foldl (fun acc t =>
      bumpGroup (fun m0 =>
          let m := m0.getD initCurrencyMetrics
          { m with volume := jsAdd m.volume (cfaAbsAmount t),
                   count := m.count + 1 })
        acc (currencyKey t)) acc) =
      currencyCountSum acc + txs.length := by
  induction txs with
  | nil => intro acc; simp
  | cons t ts ih =>
      intro acc
      simp only [List.foldl_cons, List.length_cons]
      rw [ih]
      unfold currencyCountSum
      rw [groupSum_bumpGroup _ _ (by intro b; cases b <;> rfl)]
      omega

theorem weekdayCountSum_bump (l : List WeekdayData) (day : String)
    (amt : JsNum) :
    weekdayCountSum (bumpWeekday l day amt) =
      weekdayCountSum l + (l.map (fun w => w.day)).count day := by
  induction l with
  | nil => simp [bumpWeekday, weekdayCountSum]
  | cons w ws ih =>
      unfold weekdayCountSum at ih ⊢
      by_cases h : w.day = day <;>
        simp [bumpWeekday, h, List.count_cons] at ih ⊢ <;> omega

theorem weekdayNames_count_one : ∀ d ∈ weekdayNames, weekdayNames.count d = 1 := by
  decide

theorem weekdayCountSum_fold (txs : List Transaction) :
    ∀ (acc : List WeekdayData) (l : List WeekdayData),
      List.foldlM weekdayStep acc txs = some l →
      acc.map (fun w => w.day) = weekdayNames →
      weekdayCountSum l = weekdayCountSum acc + txs.length := by
  induction txs with
  | nil =>
      intro acc l h _
      simp only [List.foldlM_nil, pure, Option.some.injEq] at h
      simp [h.symm]
  | cons t ts ih =>
      intro acc l h hdays
      rw [List.foldlM_cons] at h
      cases hp : parseISO t.created with
      | none => unfold weekdayStep at h; rw [hp] at h; simp at h
      | some dt =>
          unfold weekdayStep at h
          rw [hp] at h
          simp only [Option.map, Option.bind_eq_bind, Option.some_bind] at h
          have hdays1 : (bumpWeekday acc (formatEEEE dt)
              (cfaAbsAmount t)).map (fun w => w.day) = weekdayNames := by
            rw [bumpWeekday_days]; exact hdays
          rw [ih _ l h hdays1, weekdayCountSum_bump, hdays,
            weekdayNames_count_one (formatEEEE dt) (formatEEEE_mem dt)]
          simp only [List.length_cons]
          omega

/-- C4: for every non-empty transaction list (with finite amounts — the
parser can produce only finite or `NaN` values, and `NaN` is coerced to
`0` by the `|| 0` guard), the per-group counts of every grouping
function sum to the number of records: value segments, currency,
weekday, day, hour and month (the date-keyed groupings conditional on
the fold completing, i.e. every `created` date formatting without a
throw). -/
theorem grouping_partition_completeness (txs : List Transaction)
    (_hne : txs ≠ [])
    (hfin : ∀ t ∈ txs, cfaAbsAmount t ≠ JsNum.posInf) :
    segCountSum (valueSegmentation txs) = txs.length ∧
    currencyCountSum (currencyData txs) = txs.length ∧
    (∀ l, weekdayDataOf txs = some l → weekdayCountSum l = txs.length) ∧
    (∀ l, dailyDataOf txs = some l → dailyCountSum l = txs.length) ∧
    (∀ l, hourlyDataOf txs = some l → hourlyCountSum l = txs.length) ∧
    (∀ l, monthlyDataOf txs = some l → monthlyCountSum l = txs.length) := by
  refine ⟨?_, ?_, ?_, ?_, ?_, ?_⟩
  · unfold valueSegmentation
    rw [valueSegmentation_countSum txs initialSegments rfl hfin]
    norm_num [segCountSum, initialSegments]
  · unfold currencyData
    rw [currencyData_countSum txs []]
    norm_num [currencyCountSum, groupSum]
  · intro l h
    unfold weekdayDataOf at h
    rw [weekdayCountSum_fold txs weekdayInit l h (by decide)]
    norm_num [weekdayCountSum, weekdayInit, weekdayNames]
  · intro l h
    unfold dailyDataOf groupFoldCreated at h
    unfold dailyCountSum
    rw [groupFoldCreated_countSum formatMMMdd dailyUpd (fun d => d.count)
      (by intro t dt b; cases b <;> rfl) txs [] l h]
    norm_num [groupSum]
  · intro l h
    unfold hourlyDataOf groupFoldCreated at h
    unfold hourlyCountSum
    rw [groupFoldCreated_countSum formatHH00 hourlyUpd (fun x => x.count)
      (by intro t dt b; cases b <;> rfl) txs [] l h]
    norm_num [groupSum]
  · intro l h
    unfold monthlyDataOf groupFoldCreated at h
    unfold monthlyCountSum
    rw [groupFoldCreated_countSum formatMMMyyyy monthlyUpd (fun m => m.count)
      (by intro t dt b; cases b <;> rfl) txs [] l h]
    norm_num [groupSum]

/-- The weekday fold result on the single-payment list, before the
average pass. -/
def wdFoldLit : List WeekdayData :=
  [⟨"Sunday", 0, .num 0, .num 0⟩, ⟨"Monday", 0, .num 0, .num 0⟩,
   ⟨"Tuesday", 0, .num 0, .num 0⟩, ⟨"Wednesday", 0, .num 0, .num 0⟩,
   ⟨"Thursday", 0, .num 0, .num 0⟩, ⟨"Friday", 1, .num 50, .num 0⟩,
   ⟨"Saturday", 0, .num 0, .num 0⟩]

unseal Rat.add Rat.mul Rat.inv Rat.sub in
/-- C4 witness: partition completeness at the one-record list
`[txPay1]`, including the weekday grouping at its concrete fold
result.  (The rational operations of the standard library are
irreducible; unsealing lets the evaluation reduce.) -/
theorem grouping_partition_witness :
    segCountSum (valueSegmentation [txPay1]) = 1 ∧
    currencyCountSum (currencyData [txPay1]) = 1 ∧
    weekdayDataOf [txPay1] = some wdFoldLit ∧
    weekdayCountSum wdFoldLit = 1 :=
  ⟨(grouping_partition_completeness [txPay1] (by decide) (by decide)).1,
   (grouping_partition_completeness [txPay1] (by decide) (by decide)).2.1,
   by decide,
   (grouping_partition_completeness [txPay1]
      (by decide) (by decide)).2.2.1 wdFoldLit (by decide)⟩

/- ### C7 support -/

theorem weekdayWithAvg_days (l : List WeekdayData) :
    (weekdayWithAvg l).map (fun w => w.day) = l.map (fun w => w.day) := by
  induction l with
  | nil => rfl
  | cons w ws ih => simp only [weekdayWithAvg, List.map_cons] at ih ⊢; rw [ih]

theorem getWDCount_weekdayWithAvg (l : List WeekdayData) (d : String) :
    getWDCount (weekdayWithAvg l) d = getWDCount l d := by
  induction l with
  | nil => rfl
  | cons w ws ih =>
      unfold weekdayWithAvg at ih ⊢
      by_cases hw : w.day = d
      · rw [getWDCount, List.map_cons, List.find?_cons_of_pos _ (by simp [hw]),
          getWDCount, List.find?_cons_of_pos _ (by simp [hw])]
        rfl
      · rw [getWDCount, List.map_cons, List.find?_cons_of_neg _ (by simp [hw]),
          getWDCount, List.find?_cons_of_neg _ (by simp [hw])]
        exact ih

theorem getWDCount_zero_of_counts_zero (l : List WeekdayData) (d : String)
    (h : ∀ w ∈ l, w.count = 0) : getWDCount l d = 0 := by
  unfold getWDCount
  cases hf : l.find? (fun w => w.day == d) with
  | none => rfl
  | some w =>
      simp only [Option.map, Option.getD]
      exact h w (List.mem_of_find?_eq_some hf)

/-- C7: for every transaction list on which the weekday aggregation
completes (in particular any list dated within one calendar week, whose
`created` dates all parse), the result has exactly 7 entries in the
fixed Sunday-to-Saturday order; the entry of day `d` counts exactly the
transactions whose `created` falls on `d` (hence `count = 0` for a day
with no transactions); and a zero-count entry has
`avgSize = 0 / 0 = NaN`, with no exception thrown. -/
theorem weekday_seven_groups (txs : List Transaction)
    (l : List WeekdayData) (h : weekdayAnalysis txs = some l) :
    l.length = 7 ∧
    l.map (fun w => w.day) = weekdayNames ∧
    (∀ d, getWDCount l d =
      txs.countP (fun t => (parseISO t.created).map formatEEEE == some d)) ∧
    (∀ w ∈ l, w.count = 0 → w.avgSize = JsNum.nan) := by
  unfold weekdayAnalysis at h
  cases h0 : weekdayDataOf txs with
  | none => rw [h0] at h; simp at h
  | some l0 =>
      rw [h0] at h
      simp only [Option.map, Option.some.injEq] at h
      subst h
      unfold weekdayDataOf at h0
      have hinit : weekdayInit.map (fun w => w.day) = weekdayNames := by decide
      have hdays : l0.map (fun w => w.day) = weekdayNames := by
        rw [weekday_foldlM_days txs weekdayInit l0 h0, hinit]
      have hdays2 : (weekdayWithAvg l0).map (fun w => w.day) = weekdayNames := by
        rw [weekdayWithAvg_days, hdays]
      refine ⟨?_, hdays2, ?_, ?_⟩
      · have := congrArg List.length hdays2
        simpa using this
      · intro d
        rw [getWDCount_weekdayWithAvg]
        rw [weekday_fold_counts txs weekdayInit l0 h0 hinit d]
        rw [getWDCount_zero_of_counts_zero weekdayInit d (by decide)]
        omega
      · intro w hw hc
        have hzero := weekday_zero_volume txs l0 h0
        unfold weekdayWithAvg at hw
        rcases List.mem_map.mp hw with ⟨w0, hw0, hweq⟩
        rw [← hweq]
        rw [← hweq] at hc
        simp only at hc
        have hv := hzero w0 hw0 hc
        simp only [hv, hc]
        rfl

/-- The weekday aggregation result on the single-payment list, after
the average pass. -/
def wdAvgLit : List WeekdayData :=
  [⟨"Sunday", 0, .num 0, .nan⟩, ⟨"Monday", 0, .num 0, .nan⟩,
   ⟨"Tuesday", 0, .num 0, .nan⟩, ⟨"Wednesday", 0, .num 0, .nan⟩,
   ⟨"Thursday", 0, .num 0, .nan⟩, ⟨"Friday", 1, .num 50, .num 50⟩,
   ⟨"Saturday", 0, .num 0, .nan⟩]

unseal Rat.add Rat.mul Rat.inv Rat.sub in
/-- C7 witness: the weekday aggregation of `[txPay1]` (a Friday
payment) has 7 entries, Sunday first, and its Sunday entry — a day with
no transactions — has `count = 0` and `avgSize = NaN`. -/
theorem weekday_seven_groups_witness :
    weekdayAnalysis [txPay1] = some wdAvgLit ∧
    wdAvgLit.length = 7 ∧
    wdAvgLit.map (fun w => w.day) = weekdayNames ∧
    (⟨"Sunday", 0, .num 0, .nan⟩ : WeekdayData) ∈ wdAvgLit :=
  ⟨by decide,
   (weekday_seven_groups [txPay1] wdAvgLit (by decide)).1,
   (weekday_seven_groups [txPay1] wdAvgLit (by decide)).2.1,
   by decide⟩

/- ### C2 support -/

theorem tmStep_isSome (len : Nat) (acc : TMAcc) (t : Transaction)
    (h : (parseISO t.created).isSome) : (tmStep len acc t).isSome := by
  unfold tmStep
  by_cases hp : t.type = "payment"
  · rw [if_pos hp]
    cases hc : parseISO t.created with
    | none => rw [hc] at h; simp at h
    | some dt => rfl
  · rw [if_neg hp]
    rfl

/-- C2 counterexample: on the empty transaction list the peak-hour
computation of `TransactionVelocity` — a `reduce` with no initial
value — throws a `TypeError` (modelled `none`), and a record whose
`created` does not parse makes the weekday aggregation's
`format(date, 'EEEE')` throw a `RangeError` (modelled `none`): the
engine does not return a value on every input. -/
theorem engine_throws_cex :
    peakHourOf ([] : List Transaction) = none ∧
    weekdayDataOf [txBadCreated] = none := by decide

/-- C2 (amended): on every NON-empty transaction list whose `created`
timestamps all parse, the aggregation folds return values without
throwing — the hourly fold and its peak-hour reduce, the weekday
aggregation, the exchange-rate mapping, the `TransactionMetrics` fold
and the per-day latency fold — and the degenerate cases are silent:
the average of an empty processing-time list is `0 / 0 = NaN`, not an
exception.  (On the empty list the no-initial-value reduces throw, and
an unparseable `created` makes the date-formatting aggregations throw;
see the counterexample.) -/
theorem engine_totality_amended (txs : List Transaction) (hne : txs ≠ [])
    (hdates : ∀ t ∈ txs, (parseISO t.created).isSome) :
    (hourlyDataOf txs).isSome ∧
    (peakHourOf txs).isSome ∧
    (weekdayAnalysis txs).isSome ∧
    (exchangeRatesOf txs).isSome ∧
    (transactionMetricsAcc txs).isSome ∧
    (dailyTimesOf txs).isSome ∧
    (calculateMetrics []).avgTime = JsNum.nan ∧
    jsDiv (JsNum.num 0) (JsNum.num 0) = JsNum.nan := by
  have hhourly : (hourlyDataOf txs).isSome := by
    unfold hourlyDataOf groupFoldCreated
    refine foldlM_isSome _ txs ?_ []
    intro b t ht
    cases hc : parseISO t.created with
    | none => have := hdates t ht; rw [hc] at this; simp at this
    | some dt => rfl
  have hpeak : (peakHourOf txs).isSome := by
    obtain ⟨g, hg⟩ := Option.isSome_iff_exists.mp hhourly
    have hsum : hourlyCountSum g = txs.length := by
      unfold hourlyDataOf groupFoldCreated at hg
      unfold hourlyCountSum
      rw [groupFoldCreated_countSum formatHH00 hourlyUpd (fun x => x.count)
        (by intro t dt b; cases b <;> rfl) txs [] g hg]
      norm_num [groupSum]
    have hgne : g.map (fun p => p.2) ≠ [] := by
      intro he
      have h1 : g = [] := by
        cases g with
        | nil => rfl
        | cons a b => simp at he
      subst h1
      have h2 : 0 < txs.length := List.length_pos.mpr hne
      rw [← hsum] at h2
      simp [hourlyCountSum, groupSum] at h2
    unfold peakHourOf sortedHoursOf
    rw [hg]
    simp only [Option.map, Option.bind_eq_bind, Option.some_bind]
    cases hs : (g.map (fun p => p.2)).insertionSort
        (fun a b => a.hour ≤ b.hour) with
    | nil =>
        exfalso
        have := List.length_insertionSort
          (fun (a b : HourlyData) => a.hour ≤ b.hour) (g.map (fun p => p.2))
        rw [hs] at this
        simp at this
        have hgnil : g = [] := List.length_eq_zero.mp this.symm
        exact hgne (by rw [hgnil]; rfl)
    | cons x xs => rfl
  have hweek : (weekdayAnalysis txs).isSome := by
    have hwd : (weekdayDataOf txs).isSome := by
      unfold weekdayDataOf
      refine foldlM_isSome _ txs ?_ weekdayInit
      intro b t ht
      unfold weekdayStep
      cases hc : parseISO t.created with
      | none => have := hdates t ht; rw [hc] at this; simp at this
      | some dt => rfl
    unfold weekdayAnalysis
    obtain ⟨w, hw⟩ := Option.isSome_iff_exists.mp hwd
    rw [hw]
    rfl
  have her : (exchangeRatesOf txs).isSome := by
    unfold exchangeRatesOf
    have hm : ((txs.filter erFilter).mapM
        (fun t => (parseISO t.created).map (erDatum t))).isSome := by
      apply mapM_option_isSome
      intro t ht
      have ht2 := List.mem_of_mem_filter ht
      cases hc : parseISO t.created with
      | none => have := hdates t ht2; rw [hc] at this; simp at this
      | some dt => rfl
    obtain ⟨es, hes⟩ := Option.isSome_iff_exists.mp hm
    rw [hes]
    rfl
  have htm : (transactionMetricsAcc txs).isSome := by
    unfold transactionMetricsAcc transactionMetricsAccWith
    exact foldlM_isSome _ txs
      (fun b t ht => tmStep_isSome txs.length b t (hdates t ht)) tmInit
  have hdaily : (dailyTimesOf txs).isSome := by
    unfold dailyTimesOf
    refine foldlM_isSome _ txs ?_ []
    intro b t ht
    unfold dailyTimesStep
    cases hc : parseISO t.created with
    | none => have := hdates t ht; rw [hc] at this; simp at this
    | some dt => rfl
  exact ⟨hhourly, hpeak, hweek, her, htm, hdaily, rfl, rfl⟩

/-- C2 witness: the amended totality statement at the one-payment
list. -/
theorem engine_totality_witness :
    (peakHourOf [txPay1]).isSome = true ∧
    (transactionMetricsAcc [txPay1]).isSome = true :=
  ⟨(engine_totality_amended [txPay1] (by decide) (by decide)).2.1,
   (engine_totality_amended [txPay1] (by decide) (by decide)).2.2.2.2.1⟩

/- ### C9 support -/

theorem tmStep_nonpayment (len : Nat) (acc : TMAcc) (t : Transaction)
    (h : isPayment t = false) : tmStep len acc t = some acc := by
  unfold tmStep
  have hp : ¬ t.type = "payment" := by simpa [isPayment] using h
  rw [if_neg hp]

theorem tmStep_totalCount (len : Nat) (acc : TMAcc) (t : Transaction)
    (acc' : TMAcc) (h : tmStep len acc t = some acc') :
    acc'.totalTransactions =
      acc.totalTransactions + (if isPayment t then 1 else 0) := by
  unfold tmStep at h
  by_cases hp : t.type = "payment"
  · rw [if_pos hp] at h
    have hpay : isPayment t = true := by simp [isPayment, hp]
    rw [if_pos hpay]
    cases hc : parseISO t.created <;> rw [hc] at h
    · exact absurd h (by simp)
    · simp only [Option.some.injEq] at h
      subst h
      cases hcfa : t.customerFacingAmount <;>
        simp only [] <;> split_ifs <;> rfl
  · rw [if_neg hp] at h
    have hpay : isPayment t = false := by simp [isPayment, hp]
    rw [hpay]
    simp only [Option.some.injEq] at h
    subst h
    simp

theorem tmFold_filter (len : Nat) :
    ∀ (txs : List Transaction) (b : TMAcc),
      txs.foldlM (tmStep len) b =
        (txs.filter isPayment).foldlM (tmStep len) b := by
  intro txs
  induction txs with
  | nil => intro b; rfl
  | cons t ts ih =>
    intro b
    by_cases hp : isPayment t
    · rw [List.filter_cons_of_pos hp, List.foldlM_cons, List.foldlM_cons]
      cases htb : tmStep len b t with
      | none => rfl
      | some b1 =>
          simp only [Option.bind_eq_bind, Option.some_bind]
          exact ih b1
    · rw [List.filter_cons_of_neg hp, List.foldlM_cons,
        tmStep_nonpayment len b t (by simpa using hp)]
      simp only [Option.bind_eq_bind, Option.some_bind]
      exact ih b

theorem tmFold_totalCount (len : Nat) :
    ∀ (txs : List Transaction) (b acc : TMAcc),
      txs.foldlM (tmStep len) b = some acc →
      acc.totalTransactions = b.totalTransactions + txs.countP isPayment := by
  intro txs
  induction txs with
  | nil =>
      intro b acc h
      rw [List.foldlM_nil] at h
      injection h with h
      subst h
      simp [List.countP_nil]
  | cons t ts ih =>
    intro b acc h
    rw [List.foldlM_cons] at h
    cases htb : tmStep len b t <;> rw [htb] at h
    · simp at h
    · simp only [Option.bind_eq_bind, Option.some_bind] at h
      rename_i b1
      have h1 := ih b1 acc h
      have h2 := tmStep_totalCount len b t b1 htb
      rw [h1, h2, List.countP_cons]
      cases hq : isPayment t <;> simp [hq] <;> omega

/-- C9: the `TransactionMetrics` fold processes only `payment`-typed
records.  For every transaction list: (1) the whole accumulator equals
the fold over just the payment-typed records (payouts contribute to no
metric — volume, exchange rates, hourly and monthly distributions,
processing times, size buckets); (2) `totalTransactions` counts exactly
the payment-typed records; (3) `successRate =
(totalTransactions / transactions.length) * 100` is therefore the
fraction of payment-typed records in the input, times 100; (4) a
non-payment record leaves the accumulator untouched. -/
theorem tm_payments_only (txs : List Transaction) :
    transactionMetricsAcc txs
      = transactionMetricsAccWith txs.length (txs.filter isPayment) ∧
    (∀ acc, transactionMetricsAcc txs = some acc →
      acc.totalTransactions = (txs.filter isPayment).length) ∧
    tmSuccessRate txs = (transactionMetricsAcc txs).map (fun _ =>
      jsMul (jsDiv (.num ((txs.filter isPayment).length : ℚ))
        (.num (txs.length : ℚ))) (.num 100)) ∧
    (∀ (len : Nat) (acc : TMAcc) (t : Transaction), isPayment t = false →
      tmStep len acc t = some acc) := by
  have hcount : ∀ acc, transactionMetricsAcc txs = some acc →
      acc.totalTransactions = (txs.filter isPayment).length := by
    intro acc h
    unfold transactionMetricsAcc transactionMetricsAccWith at h
    have h3 := tmFold_totalCount txs.length txs tmInit acc h
    rw [h3, List.countP_eq_length_filter]
    show 0 + _ = _
    omega
  refine ⟨?_, hcount, ?_, fun len acc t h => tmStep_nonpayment len acc t h⟩
  · unfold transactionMetricsAcc transactionMetricsAccWith
    exact tmFold_filter txs.length txs tmInit
  · unfold tmSuccessRate
    cases hacc : transactionMetricsAcc txs with
    | none => rfl
    | some m =>
        simp only [Option.map_some']
        rw [hcount m hacc]

/-- C9 witness: the payout-typed record leaves the fold's accumulator
untouched, and on a single-payout list `totalTransactions` stays 0. -/
theorem tm_payments_only_witness :
    tmInit.totalTransactions = (List.filter isPayment [txPayout]).length ∧
    tmStep 1 tmInit txPayout = some tmInit :=
  ⟨(tm_payments_only [txPayout]).2.1 tmInit rfl,
   (tm_payments_only [txPayout]).2.2.2 1 tmInit txPayout rfl⟩

/- ### C1: the two volume-weighted exchange-rate computations -/

/-- The claimed restriction, in the specification's words:
`customerFacingCurrency == "usd"` and `customerFacingAmount` present
and non-zero. -/
def claimUsdFilter (t : Transaction) : Bool :=
  t.customerFacingCurrency == some "usd" &&
    match t.customerFacingAmount with
    | none => false
    | some (.num q) => decide (q ≠ 0)
    | some _ => true

/-- The claimed per-record rate `abs(amount_i / customerFacingAmount_i)`
(the restriction guarantees the amount is present). -/
def claimRate (t : Transaction) : JsNum :=
  jsAbs (jsDiv t.amount (t.customerFacingAmount.getD JsNum.nan))

/-- The claimed per-record volume `abs(customerFacingAmount_i)`. -/
def claimVolume (t : Transaction) : JsNum :=
  jsAbs (t.customerFacingAmount.getD JsNum.nan)

/-- The claimed formula `Σ(rate_i * volume_i) / Σ(volume_i)` over the
restricted records. -/
def claimVolumeWeightedRate (txs : List Transaction) : JsNum :=
  jsDiv (((txs.filter claimUsdFilter).map
      (fun t => jsMul (claimRate t) (claimVolume t))).sum)
    (((txs.filter claimUsdFilter).map claimVolume).sum)

/-- The records whose exchange-rate block runs inside the
`TransactionMetrics` fold: payment-typed with a truthy
`customerFacingAmount` — no currency restriction. -/
def tmErTake (t : Transaction) : Bool :=
  isPayment t && jsTruthyOpt t.customerFacingAmount

/-- The rate that block computes: `Math.abs(t.amount / cfa)`. -/
def tmRate (t : Transaction) : JsNum :=
  jsAbs (jsDiv t.amount (t.customerFacingAmount.getD JsNum.nan))

/-- The weight that block accumulates: the SIGNED
`customerFacingAmount`, with no `Math.abs`. -/
def cfaSigned (t : Transaction) : JsNum :=
  t.customerFacingAmount.getD JsNum.nan

/-- The ratio `volumeWeightedRate / totalWeightedVolume` the
`TransactionMetrics` fold ends with, written as the underlying sums. -/
def tmSignedWeightedRate (txs : List Transaction) : JsNum :=
  jsDiv (((txs.filter tmErTake).map
      (fun t => jsMul (tmRate t) (cfaSigned t))).sum)
    (((txs.filter tmErTake).map cfaSigned).sum)

/-- On records without a `NaN` customer-facing amount, the
`ExchangeRateAnalysis` filter coincides with the claimed
restriction. -/
theorem erFilter_claim_eq (t : Transaction)
    (hnan : t.customerFacingAmount ≠ some JsNum.nan) :
    erFilter t = claimUsdFilter t := by
  unfold erFilter claimUsdFilter jsTruthyOpt
  cases hc : t.customerFacingAmount with
  | none => simp
  | some v =>
      cases v with
      | nan => exact absurd hc hnan
      | num q => simp [JsNum.truthy, Bool.and_comm]
      | posInf => simp [JsNum.truthy, Bool.and_comm]
      | negInf => simp [JsNum.truthy, Bool.and_comm]

/-- On a record passing the `ExchangeRateAnalysis` filter, the code's
rate and volume expressions equal the claimed ones. -/
theorem erFilter_rate_vol (t : Transaction) (h : erFilter t = true) :
    jsAbs (jsDiv t.amount (cfaOr1 t)) = claimRate t ∧
      cfaAbsOr0 t = claimVolume t := by
  unfold erFilter jsTruthyOpt at h
  cases hc : t.customerFacingAmount with
  | none => rw [hc] at h; simp at h
  | some v =>
      rw [hc] at h
      have hv : v.truthy = true := by
        rw [Bool.and_eq_true] at h
        exact h.1
      unfold claimRate claimVolume cfaOr1 cfaAbsOr0 jsOrDefault
      rw [hc]
      constructor
      · show jsAbs (jsDiv t.amount (if v.truthy = true then v
          else JsNum.num 1)) = _
        rw [if_pos hv]
        rfl
      · show jsAbs (if v.truthy = true then v else JsNum.num 0) = _
        rw [if_pos hv]
        rfl

/-- The `ExchangeRateAnalysis` volume-weighted rate, when the analysis
completes, is exactly the claimed usd-restricted formula. -/
theorem volumeWeightedRateOf_claim (txs : List Transaction)
    (hnan : ∀ t ∈ txs, t.customerFacingAmount ≠ some JsNum.nan) :
    volumeWeightedRateOf txs =
      (exchangeRatesOf txs).map (fun _ => claimVolumeWeightedRate txs) := by
  unfold volumeWeightedRateOf
  cases her : exchangeRatesOf txs with
  | none => rfl
  | some l =>
      simp only [Option.map_some', Option.some.injEq]
      unfold exchangeRatesOf at her
      cases hm : (txs.filter erFilter).mapM
          (fun t => (parseISO t.created).map (erDatum t)) with
      | none => rw [hm] at her; simp at her
      | some es =>
          rw [hm] at her
          simp only [Option.bind_eq_bind, Option.some_bind,
            Option.some.injEq] at her
          obtain ⟨-, h2, h3⟩ := mapM_erDatum_projections _ es hm
          rw [foldl_jsAdd_eq_sum (fun r => jsMul r.rate r.volume) l,
            foldl_jsAdd_eq_sum (fun r => r.volume) l, zero_jsAdd, zero_jsAdd,
            ← her, sum_map_insertionSort, sum_map_insertionSort, h3, h2]
          have hfe : txs.filter erFilter = txs.filter claimUsdFilter :=
            List.filter_congr (fun t ht => erFilter_claim_eq t (hnan t ht))
          have hnum : (txs.filter erFilter).map (fun t =>
              jsMul (jsAbs (jsDiv t.amount (cfaOr1 t))) (cfaAbsOr0 t)) =
            (txs.filter erFilter).map (fun t =>
              jsMul (claimRate t) (claimVolume t)) :=
            List.map_congr_left (fun t ht => by
              rw [(erFilter_rate_vol t (List.of_mem_filter ht)).1,
                (erFilter_rate_vol t (List.of_mem_filter ht)).2])
          have hden : (txs.filter erFilter).map cfaAbsOr0 =
              (txs.filter erFilter).map claimVolume :=
            List.map_congr_left (fun t ht =>
              (erFilter_rate_vol t (List.of_mem_filter ht)).2)
          rw [hnum, hden, hfe]
          rfl

/-- One `TransactionMetrics` step's effect on the two
volume-weighted-rate accumulator fields. -/
theorem tmStep_erFields (len : Nat) (acc : TMAcc) (t : Transaction)
    (acc' : TMAcc) (h : tmStep len acc t = some acc') :
    acc'.volumeWeightedRate =
      jsAdd acc.volumeWeightedRate
        (if tmErTake t then jsMul (tmRate t) (cfaSigned t)
         else JsNum.num 0) ∧
    acc'.totalWeightedVolume =
      jsAdd acc.totalWeightedVolume
        (if tmErTake t then cfaSigned t else JsNum.num 0) := by
  unfold tmStep at h
  by_cases hp : t.type = "payment"
  · rw [if_pos hp] at h
    cases hc : parseISO t.created <;> rw [hc] at h
    · exact absurd h (by simp)
    · simp only [Option.some.injEq] at h
      subst h
      cases hcfa : t.customerFacingAmount with
      | none =>
          have hn : ¬ tmErTake t = true := by
            unfold tmErTake jsTruthyOpt
            rw [hcfa]
            simp
          rw [if_neg hn, if_neg hn]
          constructor
          · simp only [apply_ite TMAcc.volumeWeightedRate, ite_self]
            exact (jsAdd_zero _).symm
          · simp only [apply_ite TMAcc.totalWeightedVolume, ite_self]
            exact (jsAdd_zero _).symm
      | some v =>
          by_cases hv : v.truthy = true
          · have htake : tmErTake t = true := by
              unfold tmErTake jsTruthyOpt isPayment
              rw [hcfa, hp]
              simp [hv]
            have hrate : tmRate t = jsAbs (jsDiv t.amount v) := by
              unfold tmRate
              rw [hcfa]
              rfl
            have hw : cfaSigned t = v := by
              unfold cfaSigned
              rw [hcfa]
              rfl
            rw [if_pos htake, if_pos htake, hrate, hw]
            constructor
            · simp only [apply_ite TMAcc.volumeWeightedRate, ite_self]
              rw [if_pos hv]
            · simp only [apply_ite TMAcc.totalWeightedVolume, ite_self]
              rw [if_pos hv]
          · have hn : ¬ tmErTake t = true := by
              unfold tmErTake jsTruthyOpt
              rw [hcfa]
              simp [hv]
            rw [if_neg hn, if_neg hn]
            constructor
            · simp only [apply_ite TMAcc.volumeWeightedRate, ite_self]
              rw [if_neg hv]
              exact (jsAdd_zero _).symm
            · simp only [apply_ite TMAcc.totalWeightedVolume, ite_self]
              rw [if_neg hv]
              exact (jsAdd_zero _).symm
  · rw [if_neg hp] at h
    simp only [Option.some.injEq] at h
    subst h
    have hn : ¬ tmErTake t = true := by
      unfold tmErTake isPayment
      simp [hp]
    rw [if_neg hn, if_neg hn]
    exact ⟨(jsAdd_zero _).symm, (jsAdd_zero _).symm⟩

/-- The fold's `volumeWeightedRate` and `totalWeightedVolume` are the
signed-weight sums over the taken records. -/
theorem tmFold_erFields (len : Nat) :
    ∀ (txs : List Transaction) (b acc : TMAcc),
      txs.foldlM (tmStep len) b = some acc →
      acc.volumeWeightedRate = jsAdd b.volumeWeightedRate
        (((txs.filter tmErTake).map
          (fun t => jsMul (tmRate t) (cfaSigned t))).sum) ∧
      acc.totalWeightedVolume = jsAdd b.totalWeightedVolume
        (((txs.filter tmErTake).map cfaSigned).sum) := by
  intro txs
  induction txs with
  | nil =>
      intro b acc h
      rw [List.foldlM_nil] at h
      injection h with h
      subst h
      constructor <;>
        (rw [List.filter_nil, List.map_nil, List.sum_nil,
          jsNum_zero_def, jsAdd_zero])
  | cons t ts ih =>
    intro b acc h
    rw [List.foldlM_cons] at h
    cases htb : tmStep len b t <;> rw [htb] at h
    · simp at h
    · rename_i b1
      simp only [Option.bind_eq_bind, Option.some_bind] at h
      obtain ⟨ih1, ih2⟩ := ih b1 acc h
      obtain ⟨s1, s2⟩ := tmStep_erFields len b t b1 htb
      by_cases hq : tmErTake t
      · rw [if_pos hq] at s1 s2
        rw [List.filter_cons_of_pos hq]
        constructor
        · rw [ih1, s1, List.map_cons, List.sum_cons, jsNum_add_def,
            jsAdd_assoc]
        · rw [ih2, s2, List.map_cons, List.sum_cons, jsNum_add_def,
            jsAdd_assoc]
      · rw [if_neg hq] at s1 s2
        rw [jsAdd_zero] at s1 s2
        rw [List.filter_cons_of_neg hq]
        exact ⟨by rw [ih1, s1], by rw [ih2, s2]⟩

/-- The `TransactionMetrics` volume-weighted rate, when the fold
completes, is the signed, currency-blind weighted average. -/
theorem tmVWR_signed (txs : List Transaction) :
    tmVolumeWeightedExchangeRate txs =
      (transactionMetricsAcc txs).map (fun _ => tmSignedWeightedRate txs) := by
  unfold tmVolumeWeightedExchangeRate
  cases hacc : transactionMetricsAcc txs with
  | none => rfl
  | some m =>
      simp only [Option.map_some', Option.some.injEq]
      have h := hacc
      unfold transactionMetricsAcc transactionMetricsAccWith at h
      obtain ⟨e1, e2⟩ := tmFold_erFields txs.length txs tmInit m h
      rw [e1, e2]
      show jsDiv (jsAdd (JsNum.num 0) _) (jsAdd (JsNum.num 0) _) = _
      rw [zero_jsAdd, zero_jsAdd]
      rfl

unseal Rat.add Rat.mul Rat.inv Rat.sub in
/-- C1 counterexample: the `TransactionMetrics` fold's volume-weighted
exchange rate is NOT restricted to usd records — on a single payment
whose customer-facing currency is `eur` it yields `2`, while the
claimed usd-restricted formula yields `0 / 0 = NaN` (no record passes
the claimed restriction). -/
theorem volume_weighted_rate_cex :
    tmVolumeWeightedExchangeRate [txEur] = some (JsNum.num 2) ∧
    claimVolumeWeightedRate [txEur] = JsNum.nan ∧
    JsNum.num 2 ≠ JsNum.nan := by decide

unseal Rat.add Rat.mul Rat.inv Rat.sub in
/-- C1 (amended): the engine has TWO volume-weighted-rate computations.
The `ExchangeRateAnalysis` one satisfies the claim (for inputs without
a `NaN` customer-facing amount): whenever the analysis completes it is
`Σ(rate_i·volume_i) / Σ(volume_i)` with `rate_i = abs(amount_i /
customerFacingAmount_i)` and `volume_i = abs(customerFacingAmount_i)`,
restricted to usd records with a present non-zero amount.  The
`TransactionMetrics` one does not: it ranges over ALL payment-typed
records with a truthy `customerFacingAmount`, with no currency
restriction, and weights by the SIGNED amount.  On the claim's
two-record example both restrictions coincide and the value is
`8 / 3 ≈ 2.667`. -/
theorem volume_weighted_rate_amended (txs : List Transaction)
    (hnan : ∀ t ∈ txs, t.customerFacingAmount ≠ some JsNum.nan) :
    volumeWeightedRateOf txs =
      (exchangeRatesOf txs).map (fun _ => claimVolumeWeightedRate txs) ∧
    tmVolumeWeightedExchangeRate txs =
      (transactionMetricsAcc txs).map
        (fun _ => tmSignedWeightedRate txs) ∧
    volumeWeightedRateOf [txPay1, txPay2] = some (JsNum.num (8 / 3)) ∧
    claimVolumeWeightedRate [txPay1, txPay2] = JsNum.num (8 / 3) :=
  ⟨volumeWeightedRateOf_claim txs hnan, tmVWR_signed txs,
   by decide, by decide⟩

/-- C1 witness: the amended statement applied at the claim's two-record
example. -/
theorem volume_weighted_rate_amended_witness :
    volumeWeightedRateOf [txPay1, txPay2] =
      some (JsNum.num (8 / 3)) :=
  (volume_weighted_rate_amended [txPay1, txPay2] (by decide)).2.2.1
